import Mathlib

/-!
Shallow embedding of the Furnace SGU-1 platform dispatch
(`src/engine/platform/sgu.cpp` together with its class declaration).

Conventions used throughout:

* Machine integers become `Nat` (for unsigned fields; C masking such as
  `x & 0x0f` becomes `x % 16`, `x << 1` becomes `x * 2`, `x >> 5` becomes
  `x / 32`) and `Int` (for signed quantities such as the computed
  frequency and audio samples).
* A queued register write (`QueuedWrite`) is a pair of the
  channel-relative register address and the value truncated to a byte
  (the C field is `unsigned char val`).  The absolute chip address is
  `channel * SGU_REGS_PER_CH + relativeAddress` with
  `SGU_REGS_PER_CH = 64`; per the register cheat sheet in the source,
  operator registers sit at `o*8 + a` (`a < 8`) and channel registers at
  `32 + a`.  All functions below model the write stream of a single
  channel, so only the relative address is kept.
* External collaborators (the cycle-accurate chip core, the engine's
  `calcFreq`, the floating-point PCM rate scaling) are parameters of the
  embedded functions; the code under verification neither defines nor
  constrains them.
-/

namespace SGUModel

/-- A queued register write: channel-relative address and byte value. -/
abbrev Write := Nat × Nat

/-- Truncation to `unsigned char` performed when a value is stored into a
`QueuedWrite`. -/
def qw (a v : Nat) : Write := (a, v % 256)

/-- Channel-register addresses, relative to the channel base.  Per the
register cheat sheet in `sgu.cpp` the channel block starts at offset 32
(= `SGU_OP_PER_CH * SGU_OP_REGS`) inside the 64-register channel stride. -/
def SGU1_CHN_FREQ_L : Nat := 32
def SGU1_CHN_FREQ_H : Nat := 33
def SGU1_CHN_VOL : Nat := 34
def SGU1_CHN_PAN : Nat := 35
def SGU1_CHN_FLAGS0 : Nat := 36
def SGU1_CHN_FLAGS1 : Nat := 37
def SGU1_CHN_CUTOFF_L : Nat := 38
def SGU1_CHN_CUTOFF_H : Nat := 39
def SGU1_CHN_DUTY : Nat := 40
def SGU1_CHN_RESON : Nat := 41
def SGU1_CHN_PCM_POS_L : Nat := 42
def SGU1_CHN_PCM_POS_H : Nat := 43
def SGU1_CHN_PCM_END_L : Nat := 44
def SGU1_CHN_PCM_END_H : Nat := 45
def SGU1_CHN_PCM_RST_L : Nat := 46
def SGU1_CHN_PCM_RST_H : Nat := 47
def SGU1_CHN_RESTIMER_L : Nat := 60
def SGU1_CHN_RESTIMER_H : Nat := 61

/-- Modelled from the spec: the `SGU_WAVE_*` waveform selector values come
from `sound/sgu.h`, which is not among the shown sources; the claims only
depend on their distinctness, so representative 3-bit values are used. -/
def SGU_WAVE_SINE : Nat := 0
def SGU_WAVE_TRIANGLE : Nat := 1
def SGU_WAVE_SAWTOOTH : Nat := 2
def SGU_WAVE_PULSE : Nat := 3
def SGU_WAVE_NOISE : Nat := 4
def SGU_WAVE_PERIODIC_NOISE : Nat := 5

/-- One generic-FM operator (`DivInstrumentFM::Operator`); only the fields
that `sgu.cpp` reads or writes are modelled.  Numeric fields are `Nat`
and are masked at use sites exactly where the C code masks them. -/
structure FMOperator where
  enable : Bool
  am : Nat
  vib : Nat
  ksl : Nat
  tl : Nat
  ar : Nat
  dr : Nat
  sl : Nat
  rr : Nat
  d2r : Nat
  dt : Nat
  rs : Nat
  dam : Nat
  dvb : Nat
  ws : Nat
  mult : Nat
  ksr : Nat
  sus : Nat
  egt : Nat
  ssgEnv : Nat
deriving DecidableEq

/-- One extended-routing operator (`DivInstrumentESFM::Operator`); `fixed`
is kept as a 0/1 `Nat` (the C field is a `bool` used as `fixed & 1`). -/
structure ESFMOperator where
  delay : Nat
  modIn : Nat
  outLvl : Nat
  fixed : Nat
deriving DecidableEq

/-- Routing-table entry constructor: a default-constructed ESFM operator
with the given modulation-input and output levels.  Modelled from the
spec: `DivInstrumentESFM()`'s default constructor (declared outside the
shown sources) zero-initializes `delay` and `fixed`; the routing switches
then overwrite `modIn`/`outLvl`. -/
def mkRoute (m l : Nat) : ESFMOperator := ⟨0, m, l, 0⟩

/-- Four-operator generic-FM instrument block (`DivInstrumentFM`). -/
structure FMIns where
  alg : Nat
  fb : Nat
  ams : Nat
  fms : Nat
  op0 : FMOperator
  op1 : FMOperator
  op2 : FMOperator
  op3 : FMOperator
deriving DecidableEq

/-- Four-operator extended-routing instrument block (`DivInstrumentESFM`). -/
structure ESFMIns where
  op0 : ESFMOperator
  op1 : ESFMOperator
  op2 : ESFMOperator
  op3 : ESFMOperator
deriving DecidableEq

/-- C64/SID-style instrument block (`DivInstrumentC64`), the fields read by
`commitState`. -/
structure C64Ins where
  a : Nat
  d : Nat
  s : Nat
  r : Nat
  duty : Nat
  cut : Nat
  res : Nat
  noiseOn : Bool
  pulseOn : Bool
  sawOn : Bool
  triOn : Bool
  lp : Bool
  hp : Bool
  bp : Bool
  toFilter : Bool
  initFilter : Bool
  resetDuty : Bool
deriving DecidableEq

/-- Instrument kinds distinguished by the switches in `commitState`;
`other` stands for every `DivInstrumentType` that none of the three
switches names (they all fall into the `default:` branch). -/
inductive InsType where
  | esfm
  | fm
  | opm
  | opl
  | opll
  | opz
  | c64
  | sid2
  | su
  | pokey
  | amiga
  | other
deriving DecidableEq

/-- The slice of `DivInstrument` that `commitState` consumes. -/
structure Instrument where
  type : InsType
  amigaUseSample : Bool
  fm : FMIns
  esfm : ESFMIns
  c64 : C64Ins
  sid2NoiseMode : Nat
deriving DecidableEq

/-- Per-channel state: the `DivPlatformSGU::Channel` fields (from the class
declaration) plus the inherited `SharedChannel` fields that `sgu.cpp`
reads or writes.  `state.fm`/`state.esfm` become `stateFM`/`stateESFM`. -/
structure Channel where
  note : Int
  ins : Int
  baseFreq : Int
  pitch : Int
  pitch2 : Int
  freq : Int
  vol : Int
  outVol : Int
  active : Bool
  insChanged : Bool
  freqChanged : Bool
  keyOn : Bool
  keyOff : Bool
  inPorta : Bool
  stateFM : FMIns
  stateESFM : ESFMIns
  cutoff : Nat
  baseCutoff : Nat
  res : Nat
  control : Nat
  pan : Int
  duty : Nat
  pcm : Bool
  pcmLoop : Bool
  phaseReset : Bool
  filterPhaseReset : Bool
  timerSync : Bool
  freqSweep : Bool
  volSweep : Bool
  cutSweep : Bool
  syncTimer : Nat
  hasOffset : Nat
  sample : Int
  released : Bool
  cutoffSlide : Int
  pwSlide : Int
  virtualDuty : Nat
  ringMask : Nat
  syncMask : Nat
  key : Bool
deriving DecidableEq

/-- Widening `((x & 0x0f) << 1) | 1` applied by `commitState` to 4-bit
attack and decay rates (OPL/ESFM/OPLL/C64/SID2 paths). -/
def convAR45 (x : Nat) : Nat := (x % 16) * 2 + 1

/-- Widening `((x & 0x3f) << 1) | 1` applied by `commitState` to 6-bit
total-level values (OPL/ESFM paths, OPLL modulator). -/
def convTL67 (x : Nat) : Nat := (x % 64) * 2 + 1

/-- Widening `((x & 0x0f) << 3) | 0x04` applied by `commitState` to the
OPLL carrier's 4-bit total level. -/
def convTLCarrierOpll (x : Nat) : Nat := (x % 16) * 8 + 4

/-- Rescaling `(min(cut,2047) * 65535 + 1023) / 2047` applied by
`commitState` to the 11-bit C64 filter cutoff. -/
def convCutoff (x : Nat) : Nat := (min x 2047 * 65535 + 1023) / 2047

/-- Waveform choice for C64/SID2 instruments (`sguC64Wave`). -/
def sguC64Wave (c : C64Ins) (periodicNoise : Bool) : Nat :=
  if c.noiseOn then (if periodicNoise then SGU_WAVE_PERIODIC_NOISE else SGU_WAVE_NOISE)
  else if c.pulseOn then SGU_WAVE_PULSE
  else if c.sawOn then SGU_WAVE_SAWTOOTH
  else if c.triOn then SGU_WAVE_TRIANGLE
  else SGU_WAVE_SAWTOOTH

/-- The `oplToSguWaveformMap` table, indexed with `ws & 7`. -/
def oplToSguWaveformMap (x : Nat) : Nat :=
  match x % 8 with
  | 0 => SGU_WAVE_SINE
  | 1 => SGU_WAVE_PULSE
  | 2 => SGU_WAVE_SINE
  | 3 => SGU_WAVE_TRIANGLE
  | 4 => SGU_WAVE_PULSE
  | 5 => SGU_WAVE_PULSE
  | 6 => SGU_WAVE_PULSE
  | _ => SGU_WAVE_SAWTOOTH

/-- Instrument kinds whose operator waveforms go through
`oplToSguWaveformMap` (the first switch in `commitState`). -/
def isFMFamily (t : InsType) : Bool :=
  match t with
  | .esfm | .fm | .opm | .opl | .opll | .opz => true
  | _ => false

/-- Waveform-conversion pass of `commitState`, per operator. -/
def mapWaveOp (t : InsType) (op : FMOperator) : FMOperator :=
  if isFMFamily t then {op with ws := oplToSguWaveformMap op.ws} else op

/-- Envelope-conversion pass of `commitState` (the second switch), for
operator index `o`. -/
def envConvOp (ins : Instrument) (o : Nat) (op : FMOperator) : FMOperator :=
  match ins.type with
  | .esfm | .opl =>
    {op with ar := convAR45 op.ar, dr := convAR45 op.dr, tl := convTL67 op.tl,
             d2r := if op.egt ≠ 0 then 0 else 31}
  | .opll =>
    {op with ar := convAR45 op.ar, dr := convAR45 op.dr,
             tl := if o = 0 then convTL67 op.tl else convTLCarrierOpll op.tl,
             d2r := if op.sus ≠ 0 then 0 else 31,
             rs := if op.ksr % 2 = 1 then 3 else 0,
             dam := ins.fm.ams % 2,
             dvb := ins.fm.fms % 2}
  | .c64 =>
    if o = 3 then
      {op with ar := convAR45 ins.c64.a,
               dr := convAR45 (if ins.c64.s = 15 then 0 else ins.c64.d % 16),
               sl := 15 - ins.c64.s % 16,
               rr := ins.c64.r % 16,
               d2r := 0, tl := 0, mult := 1,
               ws := sguC64Wave ins.c64 false}
    else {op with tl := 127, enable := false}
  | .sid2 =>
    if o = 3 then
      {op with ar := convAR45 ins.c64.a,
               dr := convAR45 (if ins.c64.s = 15 then 0 else ins.c64.d % 16),
               sl := 15 - ins.c64.s % 16,
               rr := ins.c64.r % 16,
               d2r := 0, tl := 0, mult := 1,
               ws := sguC64Wave ins.c64 (ins.sid2NoiseMode ≠ 0)}
    else {op with tl := 127, enable := false}
  | .su =>
    if o = 3 then
      {op with ar := 31, dr := 0, sl := 0, rr := 15, d2r := 0, tl := 0, mult := 1,
               ws := SGU_WAVE_SAWTOOTH}
    else {op with tl := 127, enable := false}
  | .pokey =>
    if o = 3 then
      {op with ar := 31, dr := 0, sl := 0, rr := 15, d2r := 0, tl := 0, mult := 1,
               ws := SGU_WAVE_PULSE}
    else {op with tl := 127, enable := false}
  | _ => op

/-- Combined per-operator conversion: waveform map, then envelope map (the
two switches run in this order inside the same loop). -/
def opPass (ins : Instrument) (o : Nat) (op : FMOperator) : FMOperator :=
  envConvOp ins o (mapWaveOp ins.type op)

/-- The per-operator loop of `commitState` applied to the instrument's FM
block (local variable `fm`). -/
def convertOps (ins : Instrument) : FMIns :=
  {ins.fm with op0 := opPass ins 0 ins.fm.op0, op1 := opPass ins 1 ins.fm.op1,
               op2 := opPass ins 2 ins.fm.op2, op3 := opPass ins 3 ins.fm.op3}

/-- OPN/OPM/OPZ algorithm-to-routing table (the three identical `switch
(fm.alg & 7)` tables in `commitState`). -/
def opnAlgRouting (alg fb : Nat) : ESFMIns :=
  match alg % 8 with
  | 0 => ⟨mkRoute (fb % 8) 0, mkRoute 7 0, mkRoute 7 0, mkRoute 7 7⟩
  | 1 => ⟨mkRoute (fb % 8) 0, mkRoute 0 0, mkRoute 7 0, mkRoute 7 7⟩
  | 2 => ⟨mkRoute (fb % 8) 0, mkRoute 0 0, mkRoute 7 0, mkRoute 7 7⟩
  | 3 => ⟨mkRoute (fb % 8) 0, mkRoute 7 0, mkRoute 0 0, mkRoute 7 7⟩
  | 4 => ⟨mkRoute (fb % 8) 0, mkRoute 7 7, mkRoute 0 0, mkRoute 7 7⟩
  | 5 => ⟨mkRoute (fb % 8) 0, mkRoute 7 7, mkRoute 7 7, mkRoute 7 7⟩
  | 6 => ⟨mkRoute (fb % 8) 0, mkRoute 7 7, mkRoute 0 7, mkRoute 0 7⟩
  | _ => ⟨mkRoute (fb % 8) 7, mkRoute 0 7, mkRoute 0 7, mkRoute 0 7⟩

/-- OPL/OPLL 2-operator routing (`alg & 1` selects additive vs serial);
operators 2 and 3 keep the zero routing of the fresh ESFM block. -/
def oplAlgRouting (alg fb : Nat) : ESFMIns :=
  ⟨mkRoute (fb % 8) (if alg % 2 = 1 then 7 else 0),
   mkRoute (if alg % 2 = 1 then 0 else 7) 7,
   mkRoute 0 0, mkRoute 0 0⟩

/-- FLAGS0 value built by `writeControl`: KEY-ON bit 0, PCM bit 3, filter
control in bits 4-7. -/
def flags0Val (c : Channel) : Nat :=
  (if c.key then 1 else 0) + (if c.pcm then 8 else 0) + (c.control % 16) * 16

/-- The single register write of `writeControl`. -/
def writeControl (c : Channel) : Write := qw SGU1_CHN_FLAGS0 (flags0Val c)

/-- FLAGS1 value built by `writeControlUpper`. -/
def flags1Val (c : Channel) : Nat :=
  (if c.phaseReset then 1 else 0) + (if c.filterPhaseReset then 2 else 0)
  + (if c.pcmLoop then 4 else 0) + (if c.timerSync then 8 else 0)
  + (if c.freqSweep then 16 else 0) + (if c.volSweep then 32 else 0)
  + (if c.cutSweep then 64 else 0)

/-- The `writeControlUpper` member: emits the FLAGS1 write and clears the
two edge-triggered phase-reset flags. -/
def writeControlUpper (c : Channel) : Channel × Write :=
  ({c with phaseReset := false, filterPhaseReset := false},
   qw SGU1_CHN_FLAGS1 (flags1Val c))

/-- Operator accessor corresponding to `fm.op[o]` (`o` ranges over 0-3 in
all call sites). -/
def FMIns.opAt (f : FMIns) (o : Nat) : FMOperator :=
  match o with
  | 0 => f.op0
  | 1 => f.op1
  | 2 => f.op2
  | _ => f.op3

/-- Operator accessor corresponding to `esfm.op[o]`. -/
def ESFMIns.opAt (f : ESFMIns) (o : Nat) : ESFMOperator :=
  match o with
  | 0 => f.op0
  | 1 => f.op1
  | 2 => f.op2
  | _ => f.op3

/-- The eight register writes of `applyOpRegs(ch, o)` (channel-relative
addresses `o*8 + 0 .. o*8 + 7`). -/
def applyOpRegs (c : Channel) (o : Nat) : List Write :=
  let op := c.stateFM.opAt o
  let opE := c.stateESFM.opAt o
  let tl := op.tl % 128
  let ar := op.ar % 32
  let dr := op.dr % 32
  let reg0 := (op.am % 2) * 128 + (op.vib % 2) * 64 + (opE.fixed % 2) * 32 + op.mult % 16
  let reg1 := (op.ksl % 4) * 64 + tl % 64
  let reg2 := (ar % 16) * 16 + dr % 16
  let reg3 := (op.sl % 16) * 16 + op.rr % 16
  let reg4 := (op.dt % 8) * 32 + op.d2r % 32
  let reg5 := (opE.delay % 8) * 32 + (op.rs % 4) * 8
  let ring := c.ringMask / 2 ^ o % 2
  let sync := c.syncMask / 2 ^ o % 2
  let reg6 := (op.dam % 2) * 128 + (op.dvb % 2) * 64 + sync * 32 + ring * 16
    + (opE.modIn % 8) * 2 + tl / 64 % 2
  let outLvl := if op.enable then opE.outLvl % 8 else 0
  let reg7 := outLvl * 32 + (if 16 ≤ ar then 16 else 0) + (if 16 ≤ dr then 8 else 0) + op.ws % 8
  [qw (o * 8 + 0) reg0, qw (o * 8 + 1) reg1, qw (o * 8 + 2) reg2, qw (o * 8 + 3) reg3,
   qw (o * 8 + 4) reg4, qw (o * 8 + 5) reg5, qw (o * 8 + 6) reg6, qw (o * 8 + 7) reg7]

/-- Filter handling of the C64/SID2 branch of the algorithm switch:
returns the updated channel and the `updateFilter` flag. -/
def c64FilterUpdate (c : Channel) (ins : Instrument) : Channel × Bool :=
  if ¬ ins.c64.toFilter then
    (if c.control ≠ 0 then ({c with control := 0}, true) else (c, false))
  else if ins.c64.initFilter ∨ c.insChanged then
    (if ins.c64.initFilter then
      ({c with cutoff := convCutoff ins.c64.cut,
               baseCutoff := convCutoff ins.c64.cut,
               res := (ins.c64.res % 16) * 16 + ins.c64.res % 16,
               control := (if ins.c64.lp then 2 else 0) + (if ins.c64.hp then 4 else 0)
                 + (if ins.c64.bp then 8 else 0)}, true)
     else (c, false))
  else (c, false)

/-- Algorithm/routing pass of `commitState` (the third switch): returns
the final FM block, the ESFM routing block, the updated channel, and the
channel-level writes emitted inside this switch. -/
def commitAlg (c : Channel) (ins : Instrument) (fm1 : FMIns) :
    FMIns × ESFMIns × Channel × List Write :=
  match ins.type with
  | .esfm => (fm1, ins.esfm, c, [])
  | .amiga => (fm1, ins.esfm, c, [])
  | .fm => (fm1, opnAlgRouting fm1.alg fm1.fb, c, [])
  | .opm => (fm1, opnAlgRouting fm1.alg fm1.fb, c, [])
  | .opz =>
    let e := opnAlgRouting fm1.alg fm1.fb
    ({fm1 with op0 := fm1.op0, op1 := fm1.op1, op2 := fm1.op2, op3 := fm1.op3},
     {e with op0 := {e.op0 with fixed := if fm1.op0.egt ≠ 0 then 1 else 0},
             op1 := {e.op1 with fixed := if fm1.op1.egt ≠ 0 then 1 else 0},
             op2 := {e.op2 with fixed := if fm1.op2.egt ≠ 0 then 1 else 0},
             op3 := {e.op3 with fixed := if fm1.op3.egt ≠ 0 then 1 else 0}},
     c, [])
  | .opl =>
    ({fm1 with op2 := {fm1.op2 with enable := false, tl := 127},
               op3 := {fm1.op3 with enable := false, tl := 127}},
     oplAlgRouting fm1.alg fm1.fb, c, [])
  | .opll =>
    ({fm1 with
        op0 := {fm1.op0 with rs := if fm1.op0.ksr % 2 = 1 then 3 else 0,
                             dam := fm1.ams % 2, dvb := fm1.fms % 2},
        op1 := {fm1.op1 with tl := convTLCarrierOpll fm1.op1.tl,
                             rs := if fm1.op1.ksr % 2 = 1 then 3 else 0,
                             dam := fm1.ams % 2, dvb := fm1.fms % 2},
        op2 := {fm1.op2 with enable := false, tl := 127},
        op3 := {fm1.op3 with enable := false, tl := 127}},
     oplAlgRouting fm1.alg fm1.fb, c, [])
  | .su => (fm1, ⟨mkRoute 0 0, mkRoute 0 0, mkRoute 0 0, mkRoute 0 7⟩, c, [])
  | .pokey => (fm1, ⟨mkRoute 0 0, mkRoute 0 0, mkRoute 0 0, mkRoute 0 7⟩, c, [])
  | .c64 | .sid2 =>
    let dutyAct := ins.c64.resetDuty ∨ c.insChanged
    let d := min ins.c64.duty 4095 / 32
    let c1 := if dutyAct then {c with duty := d, virtualDuty := d * 32} else c
    let w1 : List Write := if dutyAct then [qw SGU1_CHN_DUTY d] else []
    let c2 := (c64FilterUpdate c1 ins).1
    let w2 : List Write :=
      if (c64FilterUpdate c1 ins).2 then
        [qw SGU1_CHN_CUTOFF_L (c2.cutoff % 256), qw SGU1_CHN_CUTOFF_H (c2.cutoff / 256),
         qw SGU1_CHN_RESON c2.res, writeControl c2]
      else []
    ({fm1 with op0 := fm1.op0}, ⟨mkRoute 0 0, mkRoute 0 0, mkRoute 0 0, mkRoute 0 7⟩,
     {c2 with ringMask := 0, syncMask := 0}, w1 ++ w2)
  | .other => (fm1, ins.esfm, c, [])

/-- The `commitState` member: translates the instrument into the channel's
operator bank and routing and returns the updated channel together with
the emitted register writes, in emission order. -/
def commitState (c : Channel) (ins : Instrument) : Channel × List Write :=
  if ins.type = .amiga ∨ ins.amigaUseSample then
    let c1 := {c with pcm := true}
    ((writeControlUpper c1).1, [writeControl c1, (writeControlUpper c1).2])
  else
    let c1 := {c with pcm := false}
    let r := commitAlg c1 ins (convertOps ins)
    let c3 := {r.2.2.1 with stateFM := r.1, stateESFM := r.2.1}
    (c3, r.2.2.2 ++ applyOpRegs c3 0 ++ applyOpRegs c3 1 ++ applyOpRegs c3 2
      ++ applyOpRegs c3 3)

/-- Sample metadata consulted by the PCM key-on path of `tick`: loop end
and start positions and loopability of `chan[i].sample`, available only
when the sample lookup and the index bound checks succeed. -/
structure SampleInfo where
  loopEnd : Nat
  loopStart : Nat
  loopable : Bool
deriving DecidableEq

/-- Clamping of the computed frequency to the 16-bit register field
(`if (freq<0) freq=0; if (freq>65535) freq=65535;`). -/
def clampFreq (f : Int) : Int :=
  if f < 0 then 0 else if f > 65535 then 65535 else f

/-- Channel state after the key-off sub-step of `tick`'s frequency block
(`chan[i].key=false; ...; chan[i].keyOff=false;`, executed only when a
key edge is pending). -/
def tfbEdgeChan (c : Channel) : Channel :=
  if c.keyOn ∨ c.keyOff then {c with key := false, keyOff := false} else c

/-- Writes emitted by the key-off sub-step: the FLAGS0 write with the key
bit clear, followed (for a PCM key-off) by a volume-0 write. -/
def tfbEdgeWrites (c : Channel) : List Write :=
  if c.keyOn ∨ c.keyOff then
    writeControl (tfbEdgeChan c) :: (if c.keyOff ∧ c.pcm then [qw SGU1_CHN_VOL 0] else [])
  else []

/-- The two frequency writes of the block, carrying the clamped computed
frequency (`chWrite(i,SGU1_CHN_FREQ_L,chan[i].freq&0xff)` and the high
byte). -/
def tfbFreqWrites (f : Int) : List Write :=
  [qw SGU1_CHN_FREQ_L ((clampFreq f).toNat % 256),
   qw SGU1_CHN_FREQ_H ((clampFreq f).toNat / 256)]

/-- Channel state after the frequency store and the key-on sub-step
(`chan[i].key=true` only when a key-on edge is pending). -/
def tfbKeyChan (c : Channel) (f : Int) : Channel :=
  if c.keyOn then {tfbEdgeChan c with freq := clampFreq f, key := true}
  else {tfbEdgeChan c with freq := clampFreq f}

/-- The key-on control write (FLAGS0 with the key bit set), emitted after
the frequency writes when a key-on edge is pending. -/
def tfbKeyOnWrites (c : Channel) (f : Int) : List Write :=
  if c.keyOn then [writeControl (tfbKeyChan c f)] else []

/-- The PCM start/end/loop sub-step of a key-on (`if (chan[i].keyOn) { if
(chan[i].pcm) { ... } }`): emits the position/end (and, when loopable,
restart) register pairs and the FLAGS1 write of `writeControlUpper`,
resets the pending sample offset and latches `pcmLoop`.  `sinfo` is
`none` exactly when the sample lookup or index bound check fails. -/
def tfbPcm (c : Channel) (f : Int) (sinfo : Option SampleInfo)
    (soff cap : Nat) : Channel × List Write :=
  if c.keyOn ∧ c.pcm then
    match sinfo with
    | some s =>
      let sEnd := if cap ≤ soff + s.loopEnd then cap - 1 else soff + s.loopEnd
      let off := soff + c.hasOffset
      let cD := {tfbKeyChan c f with hasOffset := 0, pcmLoop := s.loopable}
      let wPos := [qw SGU1_CHN_PCM_POS_L (off % 256), qw SGU1_CHN_PCM_POS_H (off / 256),
                   qw SGU1_CHN_PCM_END_L (sEnd % 256), qw SGU1_CHN_PCM_END_H (sEnd / 256)]
      let wLoop : List Write :=
        if s.loopable then
          [qw SGU1_CHN_PCM_RST_L ((if cap ≤ soff + s.loopStart then cap - 1 else soff + s.loopStart) % 256),
           qw SGU1_CHN_PCM_RST_H ((if cap ≤ soff + s.loopStart then cap - 1 else soff + s.loopStart) / 256)]
        else []
      ((writeControlUpper cD).1, wPos ++ wLoop ++ [(writeControlUpper cD).2])
    | none => (tfbKeyChan c f, [])
  else (tfbKeyChan c f, [])

/-- The frequency/key-edge block at the end of `tick` for one channel
(`if (chan[i].freqChanged || chan[i].keyOn || chan[i].keyOff) { ... }`).
`f` is the frequency computed by the engine's `calcFreq` (already
including the floating-point PCM rate scaling, both external to this
file); `sinfo` is the sample metadata when the PCM key-on lookup
succeeds, `soff` is `sampleOffSGU[chan.sample]` and `cap` the sample-RAM
capacity.  Returns the updated channel and the emitted writes in order:
key-off control write, frequency pair, key-on control write, PCM
writes. -/
def tickFreqBlock (c : Channel) (f : Int) (sinfo : Option SampleInfo)
    (soff cap : Nat) : Channel × List Write :=
  if c.freqChanged ∨ c.keyOn ∨ c.keyOff then
    ({(tfbPcm c f sinfo soff cap).1 with keyOn := false, freqChanged := false},
     tfbEdgeWrites c ++ tfbFreqWrites f ++ tfbKeyOnWrites c f
       ++ (tfbPcm c f sinfo soff cap).2)
  else (c, [])

/-- Ordering property of a channel's write stream within one tick: the
FLAGS0 write with the key bit clear sits strictly before the (unique)
FREQ_L and FREQ_H writes, and when a key-on edge is pending a FLAGS0
write with the key bit set sits strictly after them. -/
def keyOrderSpec (ws : List Write) (keyOnB : Bool) : Prop :=
  ∃ i j k : Nat,
    i < j ∧ j < k ∧
    (∃ v : Nat, ws[i]? = some (SGU1_CHN_FLAGS0, v) ∧ v % 2 = 0) ∧
    (∃ v : Nat, ws[j]? = some (SGU1_CHN_FREQ_L, v)) ∧
    (∃ v : Nat, ws[k]? = some (SGU1_CHN_FREQ_H, v)) ∧
    (∀ (n v : Nat), ws[n]? = some (SGU1_CHN_FREQ_L, v) → n = j) ∧
    (∀ (n v : Nat), ws[n]? = some (SGU1_CHN_FREQ_H, v) → n = k) ∧
    (∀ (n v : Nat), ws[n]? = some (SGU1_CHN_FLAGS0, v) → v % 2 = 0 → n = i) ∧
    (keyOnB = true →
      ∃ (m v : Nat), k < m ∧ ws[m]? = some (SGU1_CHN_FLAGS0, v) ∧ v % 2 = 1)

/-- Interface of the external chip execution core consumed by `acquire`:
`SGU_Write` and `SGU_NextSample`. -/
structure ChipCore (σ : Type) where
  write : σ → Nat → Nat → σ
  nextSample : σ → σ × Int × Int

/-- Clamping of an output sample to the signed 16-bit range
(`CLAMP(l,-32768,32767)`). -/
def clampS16 (x : Int) : Int :=
  if x < -32768 then -32768 else if x > 32767 then 32767 else x

/-- Draining of the pending write queue into the chip core (the `while
(!writes.empty())` loop inside `acquire`). -/
def drainWrites {σ : Type} (core : ChipCore σ) (st : σ) (q : List Write) : σ :=
  q.foldl (fun s w => core.write s w.1 w.2) st

/-- The `acquire(buf, len)` loop: for each of the `len` frames, drain the
queue, pull one sample pair, clamp both samples.  Returns the final core
state and the list of emitted output frames. -/
def acquire {σ : Type} (core : ChipCore σ) : σ → List Write → Nat → σ × List (Int × Int)
  | st, _, 0 => (st, [])
  | st, q, Nat.succ n =>
    let st1 := drainWrites core st q
    let r := core.nextSample st1
    let rest := acquire core r.1 [] n
    (rest.1, (clampS16 r.2.1, clampS16 r.2.2) :: rest.2)

/-- One declared sample as seen by `renderSamples`: whether `data8` is
non-null, whether `renderOn[0][sysID]` holds for the active system, and
the 8-bit payload (`length8 = data.length`). -/
structure SampleDef where
  hasData : Bool
  renderOn : Bool
  data : List Int
deriving DecidableEq

/-- Sample-memory side of the dispatch object: `sampleMem` (as a total
function, zero outside the written region), `sampleOffSGU`,
`sampleLoaded`, `sampleMemLen`, `sysIDCache`, and the list of sample
indices for which `logW("out of PCM memory ...")` fired. -/
structure SampleMemState where
  mem : Nat → Int
  off : Nat → Nat
  loaded : Nat → Bool
  memLen : Nat
  sysIDCache : Nat
  warns : List Nat

/-- Byte-wise copy `memcpy(mem+dst, data, n)` on the functional memory. -/
def copyRange (mem : Nat → Int) (dst : Nat) (data : List Int) (n : Nat) : Nat → Int :=
  fun a => if dst ≤ a ∧ a < dst + n then data.getD (a - dst) 0 else mem a

/-- The sample-layout loop of `renderSamples`: processes the declared
samples in order starting at index `i` with write position `memPos`,
returning the final write position and state.  Mirrors the `continue`,
`break`, truncated-copy and full-copy branches of the C loop. -/
def renderLoop (cap : Nat) : List SampleDef → Nat → Nat → SampleMemState → Nat × SampleMemState
  | [], _, memPos, st => (memPos, st)
  | s :: rest, i, memPos, st =>
    if s.hasData = false then renderLoop cap rest (i + 1) memPos st
    else if s.renderOn = false then
      renderLoop cap rest (i + 1) memPos {st with off := Function.update st.off i 0}
    else if cap ≤ memPos then (memPos, {st with warns := st.warns ++ [i]})
    else if cap ≤ memPos + s.data.length then
      renderLoop cap rest (i + 1) (memPos + s.data.length)
        {st with mem := copyRange st.mem memPos s.data (cap - memPos),
                 off := Function.update st.off i memPos,
                 warns := st.warns ++ [i]}
    else
      renderLoop cap rest (i + 1) (memPos + s.data.length)
        {st with mem := copyRange st.mem memPos s.data s.data.length,
                 off := Function.update st.off i memPos,
                 loaded := Function.update st.loaded i true}

/-- The state produced by the three `memset` calls at the top of
`renderSamples` (sample memory, offset table and loaded flags all
cleared; `sampleMemLen` and `sysIDCache` are separate members that the
memsets do not touch). -/
def clearedState : SampleMemState :=
  { mem := fun _ => 0, off := fun _ => 0, loaded := fun _ => false,
    memLen := 0, sysIDCache := 0, warns := [] }

/-- The `renderSamples(sysID)` member: clears everything, lays the samples
out, then records the used byte count and caches the system ID. -/
def renderSamples (cap : Nat) (samples : List SampleDef) (sysID : Nat)
    (st : SampleMemState) : SampleMemState :=
  let start := {clearedState with memLen := st.memLen, sysIDCache := st.sysIDCache}
  let r := renderLoop cap samples 0 0 start
  {r.2 with memLen := r.1, sysIDCache := sysID}

/-- Total length of the renderable payload of a sample list (the amount
`memPos` advances over it when no overflow occurs). -/
def renderedLen : List SampleDef → Nat
  | [] => 0
  | s :: rest => (if s.hasData && s.renderOn then s.data.length else 0) + renderedLen rest

/-- Decidable statement that every renderable sample of the list fits
strictly inside the capacity when copying starts at `p`. -/
def allFit (cap : Nat) : Nat → List SampleDef → Bool
  | _, [] => true
  | p, s :: rest =>
    if s.hasData && s.renderOn then
      decide (p + s.data.length < cap) && allFit cap (p + s.data.length) rest
    else allFit cap p rest

/-- The `isSampleLoaded(index, sample)` member; `loaded` is the
32768-entry `sampleLoaded` table. -/
def isSampleLoaded (loaded : Nat → Bool) (index sample : Int) : Bool :=
  if index ≠ 0 then false
  else if sample < 0 ∨ 32767 < sample then false
  else loaded sample.toNat

/-- The `getSampleMem(index)` member: the sample-RAM handle for memory
index 0, `NULL` (here `none`) otherwise. -/
def getSampleMem {α : Type} (memHandle : α) (index : Int) : Option α :=
  if index = 0 then some memHandle else none

/-- The `getMemCompo(index)` member: the composition handle for memory
index 0, `NULL` otherwise. -/
def getMemCompo {α : Type} (compo : α) (index : Int) : Option α :=
  if index = 0 then some compo else none

/-- An all-zero generic-FM operator with the C++ default `enable = true`. -/
def opZero : FMOperator :=
  ⟨true, 0, 0, 0, 0, 0, 0, 0, 0, 0, 0, 0, 0, 0, 0, 0, 0, 0, 0, 0⟩

/-- An all-zero FM instrument block. -/
def fmZero : FMIns := ⟨0, 0, 0, 0, opZero, opZero, opZero, opZero⟩

/-- An all-zero ESFM instrument block. -/
def esfmZero : ESFMIns := ⟨mkRoute 0 0, mkRoute 0 0, mkRoute 0 0, mkRoute 0 0⟩

/-- An all-zero C64 instrument block. -/
def c64Zero : C64Ins :=
  ⟨0, 0, 0, 0, 0, 0, 0, false, false, false, false, false, false, false, false, false, false⟩

/-- A concrete channel in its constructor state (`Channel()` defaults from
the class declaration; inherited `SharedChannel` fields at their neutral
values), used as input for the concrete evaluations below. -/
def chan0 : Channel :=
  { note := 0, ins := -1, baseFreq := 0, pitch := 0, pitch2 := 0, freq := 0,
    vol := 127, outVol := 127, active := false, insChanged := false,
    freqChanged := false, keyOn := false, keyOff := false, inPorta := false,
    stateFM := fmZero, stateESFM := esfmZero, cutoff := 65535, baseCutoff := 65535,
    res := 0, control := 0, pan := 0, duty := 63, pcm := false, pcmLoop := false,
    phaseReset := false, filterPhaseReset := false, timerSync := false,
    freqSweep := false, volSweep := false, cutSweep := false, syncTimer := 0,
    hasOffset := 0, sample := -1, released := false, cutoffSlide := 0,
    pwSlide := 0, virtualDuty := 0, ringMask := 0, syncMask := 0, key := false }

/-- An OPLL instrument whose carrier (operator 1) has the given raw 4-bit
total level. -/
def insOpll (t : Nat) : Instrument :=
  { type := .opll, amigaUseSample := false,
    fm := {fmZero with op1 := {opZero with tl := t}},
    esfm := esfmZero, c64 := c64Zero, sid2NoiseMode := 0 }

/-- A C64 instrument with legacy sustain 15 and a nonzero legacy decay. -/
def insC64s15 : Instrument :=
  { type := .c64, amigaUseSample := false, fm := fmZero, esfm := esfmZero,
    c64 := {c64Zero with s := 15, d := 5}, sid2NoiseMode := 0 }

/-- An instrument of an unrecognized kind with a distinctive operator
total level. -/
def insOther : Instrument :=
  { type := .other, amigaUseSample := false,
    fm := {fmZero with op0 := {opZero with tl := 7}},
    esfm := esfmZero, c64 := c64Zero, sid2NoiseMode := 0 }

/-- A trivial executable chip core over `Nat` states, used to evaluate the
render-loop theorems on concrete inputs. -/
def coreEx : ChipCore Nat :=
  ⟨fun s a v => s + a + v, fun s => (s + 1, (100000, -200000))⟩

end SGUModel
namespace SGUModel

/-! ### Helper lemmas -/

/-- Output clamping always lands in the signed 16-bit range. -/
lemma clampS16_bounds (x : Int) : -32768 ≤ clampS16 x ∧ clampS16 x ≤ 32767 := by
  unfold clampS16
  split_ifs <;> omega

/-- `renderLoop` neither reads nor writes `memLen` and `sysIDCache`; they
ride along unmodified. -/
lemma renderLoop_len_sys (cap : Nat) (ss : List SampleDef) :
    ∀ i p st x y,
      renderLoop cap ss i p {st with memLen := x, sysIDCache := y}
        = ((renderLoop cap ss i p st).1,
           {(renderLoop cap ss i p st).2 with memLen := x, sysIDCache := y}) := by
  induction ss with
  | nil => intro i p st x y; rfl
  | cons s rest ih =>
    intro i p st x y
    cases hd : s.hasData with
    | false => simp only [renderLoop, hd]; exact ih (i + 1) p st x y
    | true =>
      cases hr : s.renderOn with
      | false =>
        simp only [renderLoop, hd, hr]
        simpa using ih (i + 1) p {st with off := Function.update st.off i 0} x y
      | true =>
        by_cases hq : cap ≤ p
        · simp only [renderLoop, hd, hr, if_pos hq]
          simp
        · by_cases ho : cap ≤ p + s.data.length
          · simp only [renderLoop, hd, hr, if_neg hq, if_pos ho]
            simpa using ih (i + 1) (p + s.data.length)
              {st with mem := copyRange st.mem p s.data (cap - p),
                       off := Function.update st.off i p,
                       warns := st.warns ++ [i]} x y
          · simp only [renderLoop, hd, hr, if_neg hq, if_neg ho]
            simpa using ih (i + 1) (p + s.data.length)
              {st with mem := copyRange st.mem p s.data s.data.length,
                       off := Function.update st.off i p,
                       loaded := Function.update st.loaded i true} x y

/-- `renderSamples` rebuilds everything from its inputs: the prior state
is irrelevant. -/
lemma renderSamples_state_irrelevant (cap : Nat) (samples : List SampleDef)
    (sysID : Nat) (st st' : SampleMemState) :
    renderSamples cap samples sysID st = renderSamples cap samples sysID st' := by
  simp only [renderSamples, renderLoop_len_sys]

/-! ### Claim theorems -/

/-- C1 (counterexample): the OPLL carrier total-level conversion in
`commitState` maps the legacy maximum 15 to 124, not to the native 7-bit
maximum 127; moreover `commitState` applies the formula twice to the
OPLL carrier, so the end-to-end mapping sends 15 to 100 and is not even
monotone (legacy 1 maps to 100 while legacy 2 maps to 36). -/
theorem commitState_opll_carrier_tl_not_max :
    convTLCarrierOpll 15 = 124 ∧ (124 : Nat) ≠ 127 ∧
    (commitState chan0 (insOpll 15)).1.stateFM.op1.tl = 100 ∧
    (commitState chan0 (insOpll 1)).1.stateFM.op1.tl = 100 ∧
    (commitState chan0 (insOpll 2)).1.stateFM.op1.tl = 36 ∧
    ¬ ((commitState chan0 (insOpll 1)).1.stateFM.op1.tl
        ≤ (commitState chan0 (insOpll 2)).1.stateFM.op1.tl) := by
  decide

/-- C1 (amended): every width-conversion formula applied by `commitState`
(4-bit attack/decay to 5 bits, 6-bit total level to 7 bits, 11-bit C64
cutoff to 16 bits, 4-bit OPLL carrier total level to 7 bits) is
monotonically non-decreasing on its legacy input domain, and the first
three map the legacy maximum to the native maximum; the OPLL carrier
formula maps its legacy maximum 15 to 124 (not 127), and `commitState`
composes it with itself on the OPLL carrier. -/
theorem legacy_conversion_monotonicity :
    (∀ x y, x ≤ y → y ≤ 15 → convAR45 x ≤ convAR45 y) ∧ convAR45 15 = 31 ∧
    (∀ x y, x ≤ y → y ≤ 63 → convTL67 x ≤ convTL67 y) ∧ convTL67 63 = 127 ∧
    (∀ x y, x ≤ y → convCutoff x ≤ convCutoff y) ∧ convCutoff 2047 = 65535 ∧
    (∀ x y, x ≤ y → y ≤ 15 → convTLCarrierOpll x ≤ convTLCarrierOpll y) ∧
    convTLCarrierOpll 15 = 124 ∧
    (∀ (c : Channel) (ins : Instrument), ins.type = InsType.opll →
      ins.amigaUseSample = false →
      (commitState c ins).1.stateFM.op1.tl
        = convTLCarrierOpll (convTLCarrierOpll ins.fm.op1.tl)) := by
  refine ⟨?_, by decide, ?_, by decide, ?_, by decide, ?_, by decide, ?_⟩
  · intro x y hxy hy
    unfold convAR45
    rw [Nat.mod_eq_of_lt (by omega), Nat.mod_eq_of_lt (by omega)]
    omega
  · intro x y hxy hy
    unfold convTL67
    rw [Nat.mod_eq_of_lt (by omega), Nat.mod_eq_of_lt (by omega)]
    omega
  · intro x y hxy
    unfold convCutoff
    exact Nat.div_le_div_right
      (Nat.add_le_add_right (Nat.mul_le_mul_right _ (min_le_min_right _ hxy)) _)
  · intro x y hxy hy
    unfold convTLCarrierOpll
    rw [Nat.mod_eq_of_lt (by omega), Nat.mod_eq_of_lt (by omega)]
    omega
  · intro c ins hty huse
    obtain ⟨t, use, fm, es, c64f, nm⟩ := ins
    simp only at hty huse
    subst hty
    subst huse
    simp [commitState, commitAlg, convertOps, opPass, envConvOp, mapWaveOp, isFMFamily]

/-- C1 (witness). -/
theorem legacy_conversion_monotonicity_witness :
    convAR45 3 ≤ convAR45 7 ∧ convTL67 10 ≤ convTL67 63 ∧
    convCutoff 100 ≤ convCutoff 2047 ∧ convTLCarrierOpll 3 ≤ convTLCarrierOpll 9 ∧
    (commitState chan0 (insOpll 15)).1.stateFM.op1.tl
      = convTLCarrierOpll (convTLCarrierOpll (insOpll 15).fm.op1.tl) :=
  ⟨legacy_conversion_monotonicity.1 3 7 (by decide) (by decide),
   legacy_conversion_monotonicity.2.2.1 10 63 (by decide) (by decide),
   legacy_conversion_monotonicity.2.2.2.2.1 100 2047 (by decide),
   legacy_conversion_monotonicity.2.2.2.2.2.2.1 3 9 (by decide) (by decide),
   legacy_conversion_monotonicity.2.2.2.2.2.2.2.2 chan0 (insOpll 15) rfl rfl⟩

/-- C3 (counterexample): a C64 instrument with legacy sustain 15 and
legacy decay 5 yields native carrier decay rate 1, not 0. -/
theorem commitState_sustain15_decay_not_zero :
    (commitState chan0 insC64s15).1.stateFM.op3.dr = 1 ∧
    ¬ ((commitState chan0 insC64s15).1.stateFM.op3.dr = 0) := by
  decide

/-- C3 (amended): for C64/SID2 instruments with legacy sustain 15,
`commitState` replaces the legacy decay value by 0 *before* the 4-to-5-bit
widening, so the carrier's native decay rate is `((0 & 15) << 1) | 1 = 1`
regardless of the legacy decay field. -/
theorem commitState_sustain15_decay_one (c : Channel) (ins : Instrument)
    (hk : ins.type = InsType.c64 ∨ ins.type = InsType.sid2)
    (hu : ins.amigaUseSample = false) (hs : ins.c64.s = 15) :
    (commitState c ins).1.stateFM.op3.dr = 1 := by
  obtain ⟨t, use, fm, es, c64f, nm⟩ := ins
  simp only at hk hu hs
  subst hu
  rcases hk with hk | hk <;> subst hk <;>
    simp [commitState, commitAlg, convertOps, opPass, envConvOp, mapWaveOp,
      isFMFamily, hs, convAR45]

/-- C3 (witness). -/
theorem commitState_sustain15_decay_one_witness :
    (insC64s15.type = InsType.c64 ∨ insC64s15.type = InsType.sid2) ∧
    insC64s15.amigaUseSample = false ∧ insC64s15.c64.s = 15 ∧
    (commitState chan0 insC64s15).1.stateFM.op3.dr = 1 :=
  ⟨Or.inl rfl, rfl, rfl,
   commitState_sustain15_decay_one chan0 insC64s15 (Or.inl rfl) rfl rfl⟩

/-- C8 (counterexample): for an instrument of an unrecognized kind,
`commitState` does mutate the channel state (here it clears `pcm` and
overwrites the operator bank), so the state is not left unchanged. -/
theorem commitState_other_kind_changes_state :
    (commitState {chan0 with pcm := true} insOther).1 ≠ {chan0 with pcm := true} := by
  decide

/-- C8 (amended): for an instrument kind that none of the conversion
switches recognizes, every `default:` branch is a no-op, so `commitState`
behaves as the defined pass-through: it clears `pcm`, copies the
instrument's FM and ESFM parameter blocks into the channel verbatim
(no conversion applied), leaves every other channel field unchanged, and
emits exactly the four operators' register writes. -/
theorem commitState_other_kind_passthrough (c : Channel) (ins : Instrument)
    (hk : ins.type = InsType.other) (hu : ins.amigaUseSample = false) :
    (commitState c ins).1
      = {c with pcm := false, stateFM := ins.fm, stateESFM := ins.esfm} ∧
    (commitState c ins).2
      = applyOpRegs {c with pcm := false, stateFM := ins.fm, stateESFM := ins.esfm} 0
        ++ applyOpRegs {c with pcm := false, stateFM := ins.fm, stateESFM := ins.esfm} 1
        ++ applyOpRegs {c with pcm := false, stateFM := ins.fm, stateESFM := ins.esfm} 2
        ++ applyOpRegs {c with pcm := false, stateFM := ins.fm, stateESFM := ins.esfm} 3 := by
  obtain ⟨t, use, fm, es, c64f, nm⟩ := ins
  simp only at hk hu
  subst hk
  subst hu
  constructor <;>
    simp [commitState, commitAlg, convertOps, opPass, envConvOp, mapWaveOp, isFMFamily]

/-- C8 (witness). -/
theorem commitState_other_kind_passthrough_witness :
    insOther.type = InsType.other ∧ insOther.amigaUseSample = false ∧
    (commitState chan0 insOther).1
      = {chan0 with pcm := false, stateFM := insOther.fm, stateESFM := insOther.esfm} :=
  ⟨rfl, rfl, (commitState_other_kind_passthrough chan0 insOther rfl rfl).1⟩

/-- C9: every introspection entry point is guarded: `isSampleLoaded`
returns `false` for any memory index other than 0 and for any sample
index outside 0..32767, `getSampleMem` and `getMemCompo` return `none`
for any memory index other than 0, and the `sampleLoaded` table is only
consulted at an index strictly below its 32768-entry size. -/
theorem introspection_index_guards {α β : Type} (loaded : Nat → Bool)
    (memHandle : α) (compo : β) (index sample : Int) :
    (index ≠ 0 → isSampleLoaded loaded index sample = false) ∧
    ((sample < 0 ∨ 32767 < sample) → isSampleLoaded loaded index sample = false) ∧
    (index ≠ 0 → getSampleMem memHandle index = none) ∧
    (index ≠ 0 → getMemCompo compo index = none) ∧
    (index = 0 → 0 ≤ sample → sample ≤ 32767 →
      isSampleLoaded loaded index sample = loaded sample.toNat ∧ sample.toNat < 32768) := by
  refine ⟨?_, ?_, ?_, ?_, ?_⟩
  · intro h; simp [isSampleLoaded, h]
  · intro h
    unfold isSampleLoaded
    split_ifs <;> simp_all
  · intro h; simp [getSampleMem, h]
  · intro h; simp [getMemCompo, h]
  · intro h h0 h1
    subst h
    refine ⟨by simp [isSampleLoaded, not_or.mpr ⟨not_lt.mpr h0, not_lt.mpr h1⟩], ?_⟩
    omega

/-- C9 (witness). -/
theorem introspection_index_guards_witness :
    isSampleLoaded (fun _ => true) 1 5 = false ∧
    isSampleLoaded (fun _ => true) 0 40000 = false ∧
    getSampleMem (0 : Nat) 1 = none ∧
    getMemCompo (0 : Nat) 1 = none ∧
    (isSampleLoaded (fun _ => true) 0 5 = (fun _ => true) (5 : Int).toNat ∧
      (5 : Int).toNat < 32768) :=
  ⟨(introspection_index_guards (fun _ => true) (0 : Nat) (0 : Nat) 1 5).1 (by decide),
   (introspection_index_guards (fun _ => true) (0 : Nat) (0 : Nat) 0 40000).2.1
     (Or.inr (by decide)),
   (introspection_index_guards (fun _ => true) (0 : Nat) (0 : Nat) 1 5).2.2.1 (by decide),
   (introspection_index_guards (fun _ => true) (0 : Nat) (0 : Nat) 1 5).2.2.2.1 (by decide),
   (introspection_index_guards (fun _ => true) (0 : Nat) (0 : Nat) 0 5).2.2.2.2 rfl
     (by decide) (by decide)⟩

/-- C10: after `writeControlUpper`, the channel's `phaseReset` and
`filterPhaseReset` flags are false while all other fields (in particular
the other five FLAGS1-encoded flags) are unchanged; consequently a second
call emits a FLAGS1 value whose two phase-reset bits are clear — it
equals the first value with its two low bits stripped — so a pending
phase-reset edge is emitted at most once. -/
theorem writeControlUpper_edge_flags (c : Channel) :
    (writeControlUpper c).1 = {c with phaseReset := false, filterPhaseReset := false} ∧
    (writeControlUpper c).1.phaseReset = false ∧
    (writeControlUpper c).1.filterPhaseReset = false ∧
    (writeControlUpper c).1.pcmLoop = c.pcmLoop ∧
    (writeControlUpper c).1.timerSync = c.timerSync ∧
    (writeControlUpper c).1.freqSweep = c.freqSweep ∧
    (writeControlUpper c).1.volSweep = c.volSweep ∧
    (writeControlUpper c).1.cutSweep = c.cutSweep ∧
    (writeControlUpper (writeControlUpper c).1).2.2 % 4 = 0 ∧
    (writeControlUpper (writeControlUpper c).1).2.2
      = (writeControlUpper c).2.2 - (writeControlUpper c).2.2 % 4 := by
  refine ⟨rfl, rfl, rfl, rfl, rfl, rfl, rfl, rfl, ?_, ?_⟩ <;>
  · simp only [writeControlUpper, qw, flags1Val]
    split_ifs <;> simp_all

/-- C5: `acquire` first drains the entire pending write queue into the
chip core and only then asks it for the next sample pair (running it on
a pre-drained core with an empty queue produces the identical result),
and every output frame it stores is clamped into [-32768, 32767]. -/
theorem acquire_drain_and_clamp {σ : Type} (core : ChipCore σ) (st : σ)
    (q : List Write) (n : Nat) :
    (∀ p ∈ (acquire core st q n).2,
       -32768 ≤ p.1 ∧ p.1 ≤ 32767 ∧ -32768 ≤ p.2 ∧ p.2 ≤ 32767) ∧
    (0 < n → acquire core st q n = acquire core (drainWrites core st q) [] n) := by
  constructor
  · induction n generalizing st q with
    | zero => intro p hp; simp [acquire] at hp
    | succ m ih =>
      intro p hp
      simp only [acquire, List.mem_cons] at hp
      rcases hp with hp | hp
      · subst hp
        exact ⟨(clampS16_bounds _).1, (clampS16_bounds _).2,
          (clampS16_bounds _).1, (clampS16_bounds _).2⟩
      · exact ih _ _ p hp
  · intro hn
    cases n with
    | zero => omega
    | succ m => simp [acquire, drainWrites]

/-- C5 (witness). -/
theorem acquire_drain_and_clamp_witness :
    (32767, -32768) ∈ (acquire coreEx 0 [(3, 4)] 1).2 ∧
    (-32768 ≤ (32767 : Int) ∧ (32767 : Int) ≤ 32767 ∧
      -32768 ≤ (-32768 : Int) ∧ (-32768 : Int) ≤ 32767) ∧
    0 < 1 ∧
    acquire coreEx 0 [(3, 4)] 1 = acquire coreEx (drainWrites coreEx 0 [(3, 4)]) [] 1 :=
  ⟨by decide,
   (acquire_drain_and_clamp coreEx 0 [(3, 4)] 1).1 (32767, -32768) (by decide),
   by decide,
   (acquire_drain_and_clamp coreEx 0 [(3, 4)] 1).2 (by decide)⟩

/-- C6: `renderSamples` is idempotent — running it a second time with the
same sample set, capacity and system ID reproduces exactly the state
(offset table, loaded flags, memory contents, used-byte count) left by
the first run, because it fully overwrites all prior state. -/
theorem renderSamples_idempotent (cap : Nat) (samples : List SampleDef)
    (sysID : Nat) (st : SampleMemState) :
    renderSamples cap samples sysID (renderSamples cap samples sysID st)
      = renderSamples cap samples sysID st :=
  renderSamples_state_irrelevant cap samples sysID _ st

end SGUModel
namespace SGUModel

/-- FLAGS0 values built with the key flag clear are even. -/
lemma flags0Val_even (c : Channel) (h : c.key = false) : flags0Val c % 2 = 0 := by
  unfold flags0Val
  rw [h]
  cases hp : c.pcm <;> simp <;> omega

/-- FLAGS0 values built with the key flag set are odd. -/
lemma flags0Val_odd (c : Channel) (h : c.key = true) : flags0Val c % 2 = 1 := by
  unfold flags0Val
  rw [h]
  cases hp : c.pcm <;> simp <;> omega

/-- With a pending key edge, the edge write list starts with an
even-valued FLAGS0 write (key bit clear), optionally followed by the PCM
volume-0 write. -/
lemma tfbEdgeWrites_struct (c : Channel) (hEdge : c.keyOn = true ∨ c.keyOff = true) :
    ∃ v rest, tfbEdgeWrites c = (SGU1_CHN_FLAGS0, v) :: rest ∧ v % 2 = 0 ∧
      (rest = [] ∨ rest = [(SGU1_CHN_VOL, 0)]) := by
  have hcond : (c.keyOn ∨ c.keyOff) := by rcases hEdge with h | h <;> simp [h]
  have hkey : (tfbEdgeChan c).key = false := by
    unfold tfbEdgeChan; rw [if_pos hcond]
  have hev : flags0Val (tfbEdgeChan c) % 256 % 2 = 0 := by
    have := flags0Val_even _ hkey
    omega
  refine ⟨flags0Val (tfbEdgeChan c) % 256,
    (if c.keyOff ∧ c.pcm then [qw SGU1_CHN_VOL 0] else []), ?_, hev, ?_⟩
  · unfold tfbEdgeWrites
    rw [if_pos hcond]
    rfl
  · by_cases hko : (c.keyOff = true ∧ c.pcm = true)
    · right
      rw [if_pos (by simp [hko.1, hko.2])]
      simp [qw]
    · left
      rw [if_neg (by simpa using hko)]

/-- Every edge write targets FLAGS0 or the volume register. -/
lemma tfbEdgeWrites_addrs (c : Channel) :
    ∀ w ∈ tfbEdgeWrites c, w.1 = SGU1_CHN_FLAGS0 ∨ w.1 = SGU1_CHN_VOL := by
  intro w hw
  unfold tfbEdgeWrites at hw
  split at hw
  · rcases List.mem_cons.mp hw with rfl | hw2
    · left; rfl
    · split at hw2
      · right
        rcases List.mem_singleton.mp hw2 with rfl
        rfl
      · simp at hw2
  · simp at hw

/-- With a pending key-on edge, the key-on write list is a single FLAGS0
write with odd value (key bit set). -/
lemma tfbKeyOnWrites_on (c : Channel) (f : Int) (hOn : c.keyOn = true) :
    ∃ v, tfbKeyOnWrites c f = [(SGU1_CHN_FLAGS0, v)] ∧ v % 2 = 1 := by
  have hkey : (tfbKeyChan c f).key = true := by
    unfold tfbKeyChan; rw [if_pos hOn]
  have hodd : flags0Val (tfbKeyChan c f) % 256 % 2 = 1 := by
    have := flags0Val_odd _ hkey
    omega
  refine ⟨flags0Val (tfbKeyChan c f) % 256, ?_, hodd⟩
  unfold tfbKeyOnWrites
  rw [if_pos hOn]
  rfl

/-- Without a key-on edge there is no key-on write. -/
lemma tfbKeyOnWrites_off (c : Channel) (f : Int) (hOn : c.keyOn = false) :
    tfbKeyOnWrites c f = [] := by
  simp [tfbKeyOnWrites, hOn]

/-- Every key-on write targets FLAGS0. -/
lemma tfbKeyOnWrites_addrs (c : Channel) (f : Int) :
    ∀ w ∈ tfbKeyOnWrites c f, w.1 = SGU1_CHN_FLAGS0 := by
  intro w hw
  unfold tfbKeyOnWrites at hw
  split at hw
  · rcases List.mem_singleton.mp hw with rfl; rfl
  · simp at hw

/-- Without a key-on edge the PCM sub-step emits nothing. -/
lemma tfbPcm_off (c : Channel) (f : Int) (sinfo : Option SampleInfo)
    (soff cap : Nat) (hOn : c.keyOn = false) :
    (tfbPcm c f sinfo soff cap).2 = [] := by
  simp [tfbPcm, hOn]

/-- PCM sub-step writes never target the frequency, FLAGS0 or volume
registers. -/
lemma tfbPcm_writes_addrs (c : Channel) (f : Int) (sinfo : Option SampleInfo)
    (soff cap : Nat) :
    ∀ w ∈ (tfbPcm c f sinfo soff cap).2,
      w.1 ≠ SGU1_CHN_FREQ_L ∧ w.1 ≠ SGU1_CHN_FREQ_H ∧ w.1 ≠ SGU1_CHN_FLAGS0
        ∧ w.1 ≠ SGU1_CHN_VOL := by
  intro w hw
  unfold tfbPcm at hw
  split at hw
  · cases sinfo with
    | none => simp at hw
    | some s =>
      dsimp only at hw
      rcases List.mem_append.mp hw with h12 | h3
      · by_cases hl : s.loopable = true
        · rw [if_pos hl] at h12
          simp only [qw, List.mem_append, List.mem_cons, List.not_mem_nil, or_false] at h12
          rcases h12 with (rfl | rfl | rfl | rfl) | (rfl | rfl) <;>
            simp [SGU1_CHN_PCM_POS_L, SGU1_CHN_PCM_POS_H, SGU1_CHN_PCM_END_L, SGU1_CHN_PCM_END_H, SGU1_CHN_PCM_RST_L, SGU1_CHN_PCM_RST_H, SGU1_CHN_FLAGS1, SGU1_CHN_FREQ_L, SGU1_CHN_FREQ_H, SGU1_CHN_FLAGS0, SGU1_CHN_VOL, writeControlUpper, qw]
        · rw [if_neg hl] at h12
          simp only [qw, List.append_nil, List.mem_cons, List.not_mem_nil, or_false] at h12
          rcases h12 with rfl | rfl | rfl | rfl <;>
            simp [SGU1_CHN_PCM_POS_L, SGU1_CHN_PCM_POS_H, SGU1_CHN_PCM_END_L, SGU1_CHN_PCM_END_H, SGU1_CHN_PCM_RST_L, SGU1_CHN_PCM_RST_H, SGU1_CHN_FLAGS1, SGU1_CHN_FREQ_L, SGU1_CHN_FREQ_H, SGU1_CHN_FLAGS0, SGU1_CHN_VOL, writeControlUpper, qw]
      · rcases List.mem_singleton.mp h3 with rfl
        simp [SGU1_CHN_PCM_POS_L, SGU1_CHN_PCM_POS_H, SGU1_CHN_PCM_END_L, SGU1_CHN_PCM_END_H, SGU1_CHN_PCM_RST_L, SGU1_CHN_PCM_RST_H, SGU1_CHN_FLAGS1, SGU1_CHN_FREQ_L, SGU1_CHN_FREQ_H, SGU1_CHN_FLAGS0, SGU1_CHN_VOL, writeControlUpper, qw]
  · simp at hw

/-- The channel leaving the PCM sub-step carries the clamped frequency. -/
lemma tfbKeyChan_freq (c : Channel) (f : Int) :
    (tfbKeyChan c f).freq = clampFreq f := by
  unfold tfbKeyChan
  split <;> rfl

/-- The channel leaving the PCM sub-step carries the clamped frequency. -/
lemma tfbPcm_chan_freq (c : Channel) (f : Int) (sinfo : Option SampleInfo)
    (soff cap : Nat) : (tfbPcm c f sinfo soff cap).1.freq = clampFreq f := by
  unfold tfbPcm
  split
  · cases sinfo with
    | none => exact tfbKeyChan_freq c f
    | some s =>
      show ((writeControlUpper _).1).freq = _
      rw [writeControlUpper]
      exact tfbKeyChan_freq c f
  · exact tfbKeyChan_freq c f

/-- Position lookups inside a list whose elements all avoid address `a`
never return a write to `a`. -/
lemma not_getElem?_of_addrs (tl2 : List Write) (a m v : Nat)
    (htl : ∀ w ∈ tl2, w.1 ≠ a) : tl2[m]? ≠ some (a, v) := by
  intro h
  obtain ⟨hlt, heq⟩ := List.getElem?_eq_some_iff.mp h
  exact (htl _ (heq ▸ List.getElem_mem hlt)) rfl

/-- Write streams of the canonical shape — even FLAGS0 write, optional
volume write, the two frequency writes, then (for a key-on) an odd
FLAGS0 write and address-disjoint PCM writes — satisfy the key/frequency
ordering property. -/
lemma freq_write_order_shape (vOff lo hi : Nat) (a1 rest : List Write) (b : Bool)
    (hA : a1 = [] ∨ a1 = [(SGU1_CHN_VOL, 0)])
    (hv : vOff % 2 = 0)
    (hrest : if b = true then
        ∃ vOn tl2, vOn % 2 = 1 ∧ rest = (SGU1_CHN_FLAGS0, vOn) :: tl2 ∧
          ∀ w ∈ tl2, w.1 ≠ SGU1_CHN_FREQ_L ∧ w.1 ≠ SGU1_CHN_FREQ_H ∧ w.1 ≠ SGU1_CHN_FLAGS0
      else rest = []) :
    keyOrderSpec ((SGU1_CHN_FLAGS0, vOff) :: a1
      ++ (SGU1_CHN_FREQ_L, lo) :: (SGU1_CHN_FREQ_H, hi) :: rest) b := by
  cases b with
  | false =>
    rw [if_neg (by decide)] at hrest
    subst hrest
    rcases hA with rfl | rfl
    · refine ⟨0, 1, 2, by omega, by omega, ⟨vOff, by simp, hv⟩, ⟨lo, by simp⟩,
        ⟨hi, by simp⟩, ?_, ?_, ?_, by simp⟩
      · intro n v h
        by_cases hn : n < 3
        · interval_cases n <;>
            simp_all [SGU1_CHN_FLAGS0, SGU1_CHN_FREQ_L, SGU1_CHN_FREQ_H]
        · rw [List.getElem?_eq_none (by simp; omega)] at h
          simp at h
      · intro n v h
        by_cases hn : n < 3
        · interval_cases n <;>
            simp_all [SGU1_CHN_FLAGS0, SGU1_CHN_FREQ_L, SGU1_CHN_FREQ_H]
        · rw [List.getElem?_eq_none (by simp; omega)] at h
          simp at h
      · intro n v h hev
        by_cases hn : n < 3
        · interval_cases n <;>
            simp_all [SGU1_CHN_FLAGS0, SGU1_CHN_FREQ_L, SGU1_CHN_FREQ_H]
        · rw [List.getElem?_eq_none (by simp; omega)] at h
          simp at h
    · refine ⟨0, 2, 3, by omega, by omega, ⟨vOff, by simp, hv⟩, ⟨lo, by simp⟩,
        ⟨hi, by simp⟩, ?_, ?_, ?_, by simp⟩
      · intro n v h
        by_cases hn : n < 4
        · interval_cases n <;>
            simp_all [SGU1_CHN_FLAGS0, SGU1_CHN_FREQ_L, SGU1_CHN_FREQ_H, SGU1_CHN_VOL]
        · rw [List.getElem?_eq_none (by simp; omega)] at h
          simp at h
      · intro n v h
        by_cases hn : n < 4
        · interval_cases n <;>
            simp_all [SGU1_CHN_FLAGS0, SGU1_CHN_FREQ_L, SGU1_CHN_FREQ_H, SGU1_CHN_VOL]
        · rw [List.getElem?_eq_none (by simp; omega)] at h
          simp at h
      · intro n v h hev
        by_cases hn : n < 4
        · interval_cases n <;>
            simp_all [SGU1_CHN_FLAGS0, SGU1_CHN_FREQ_L, SGU1_CHN_FREQ_H, SGU1_CHN_VOL]
        · rw [List.getElem?_eq_none (by simp; omega)] at h
          simp at h
  | true =>
    rw [if_pos rfl] at hrest
    obtain ⟨vOn, tl2, hOdd, rfl, htl2⟩ := hrest
    rcases hA with rfl | rfl
    · refine ⟨0, 1, 2, by omega, by omega, ⟨vOff, by simp, hv⟩, ⟨lo, by simp⟩,
        ⟨hi, by simp⟩, ?_, ?_, ?_, fun _ => ⟨3, vOn, by omega, by simp, hOdd⟩⟩
      · intro n v h
        by_cases hn : n < 4
        · interval_cases n <;>
            simp_all [SGU1_CHN_FLAGS0, SGU1_CHN_FREQ_L, SGU1_CHN_FREQ_H]
        · obtain ⟨m, rfl⟩ : ∃ m, n = m + 4 := ⟨n - 4, by omega⟩
          simp only [List.cons_append, List.nil_append, List.getElem?_cons_succ] at h
          exact absurd h (not_getElem?_of_addrs _ _ _ _ (fun w hw => (htl2 w hw).1))
      · intro n v h
        by_cases hn : n < 4
        · interval_cases n <;>
            simp_all [SGU1_CHN_FLAGS0, SGU1_CHN_FREQ_L, SGU1_CHN_FREQ_H]
        · obtain ⟨m, rfl⟩ : ∃ m, n = m + 4 := ⟨n - 4, by omega⟩
          simp only [List.cons_append, List.nil_append, List.getElem?_cons_succ] at h
          exact absurd h (not_getElem?_of_addrs _ _ _ _ (fun w hw => (htl2 w hw).2.1))
      · intro n v h hev
        by_cases hn : n < 4
        · interval_cases n <;>
            simp_all [SGU1_CHN_FLAGS0, SGU1_CHN_FREQ_L, SGU1_CHN_FREQ_H]
        · obtain ⟨m, rfl⟩ : ∃ m, n = m + 4 := ⟨n - 4, by omega⟩
          simp only [List.cons_append, List.nil_append, List.getElem?_cons_succ] at h
          exact absurd h (not_getElem?_of_addrs _ _ _ _ (fun w hw => (htl2 w hw).2.2))
    · refine ⟨0, 2, 3, by omega, by omega, ⟨vOff, by simp, hv⟩, ⟨lo, by simp⟩,
        ⟨hi, by simp⟩, ?_, ?_, ?_, fun _ => ⟨4, vOn, by omega, by simp, hOdd⟩⟩
      · intro n v h
        by_cases hn : n < 5
        · interval_cases n <;>
            simp_all [SGU1_CHN_FLAGS0, SGU1_CHN_FREQ_L, SGU1_CHN_FREQ_H, SGU1_CHN_VOL]
        · obtain ⟨m, rfl⟩ : ∃ m, n = m + 5 := ⟨n - 5, by omega⟩
          simp only [List.cons_append, List.nil_append, List.getElem?_cons_succ] at h
          exact absurd h (not_getElem?_of_addrs _ _ _ _ (fun w hw => (htl2 w hw).1))
      · intro n v h
        by_cases hn : n < 5
        · interval_cases n <;>
            simp_all [SGU1_CHN_FLAGS0, SGU1_CHN_FREQ_L, SGU1_CHN_FREQ_H, SGU1_CHN_VOL]
        · obtain ⟨m, rfl⟩ : ∃ m, n = m + 5 := ⟨n - 5, by omega⟩
          simp only [List.cons_append, List.nil_append, List.getElem?_cons_succ] at h
          exact absurd h (not_getElem?_of_addrs _ _ _ _ (fun w hw => (htl2 w hw).2.1))
      · intro n v h hev
        by_cases hn : n < 5
        · interval_cases n <;>
            simp_all [SGU1_CHN_FLAGS0, SGU1_CHN_FREQ_L, SGU1_CHN_FREQ_H, SGU1_CHN_VOL]
        · obtain ⟨m, rfl⟩ : ∃ m, n = m + 5 := ⟨n - 5, by omega⟩
          simp only [List.cons_append, List.nil_append, List.getElem?_cons_succ] at h
          exact absurd h (not_getElem?_of_addrs _ _ _ _ (fun w hw => (htl2 w hw).2.2))

end SGUModel
namespace SGUModel

/-- C2: whenever a channel enters a tick with a pending key-on or key-off
edge (and a frequency change), the emitted per-channel write sequence
contains the key-off control write (FLAGS0 with the key bit clear)
strictly before the unique FREQ_L and FREQ_H writes, and, when the
pending edge is a key-on, a key-on control write (FLAGS0 with the key
bit set) strictly after them. -/
theorem tick_key_edge_write_order (c : Channel) (f : Int) (sinfo : Option SampleInfo)
    (soff cap : Nat) (hF : c.freqChanged = true)
    (hEdge : c.keyOn = true ∨ c.keyOff = true) :
    keyOrderSpec (tickFreqBlock c f sinfo soff cap).2 c.keyOn := by
  have hcond : (c.freqChanged ∨ c.keyOn ∨ c.keyOff) := by simp [hF]
  unfold tickFreqBlock
  rw [if_pos hcond]
  dsimp only
  obtain ⟨vOff, restA, hAeq, hAev, hArest⟩ := tfbEdgeWrites_struct c hEdge
  rw [hAeq]
  cases hOn : c.keyOn with
  | true =>
    obtain ⟨vOn, hKeq, hKodd⟩ := tfbKeyOnWrites_on c f hOn
    rw [hKeq]
    have hsh := freq_write_order_shape vOff ((clampFreq f).toNat % 256 % 256)
      ((clampFreq f).toNat / 256 % 256) restA
      ((SGU1_CHN_FLAGS0, vOn) :: (tfbPcm c f sinfo soff cap).2) true hArest hAev
      (by
        rw [if_pos rfl]
        exact ⟨vOn, (tfbPcm c f sinfo soff cap).2, hKodd, rfl,
          fun w hw => ⟨(tfbPcm_writes_addrs c f sinfo soff cap w hw).1,
            (tfbPcm_writes_addrs c f sinfo soff cap w hw).2.1,
            (tfbPcm_writes_addrs c f sinfo soff cap w hw).2.2.1⟩⟩)
    simpa only [tfbFreqWrites, qw, List.cons_append, List.nil_append,
      List.append_assoc] using hsh
  | false =>
    rw [tfbKeyOnWrites_off c f hOn, tfbPcm_off c f sinfo soff cap hOn]
    have hsh := freq_write_order_shape vOff ((clampFreq f).toNat % 256 % 256)
      ((clampFreq f).toNat / 256 % 256) restA [] false hArest hAev
      (by rw [if_neg (by decide)])
    simpa only [tfbFreqWrites, qw, List.cons_append, List.nil_append,
      List.append_nil, List.append_assoc] using hsh

/-- C2 (witness). -/
theorem tick_key_edge_write_order_witness :
    ({chan0 with keyOn := true, freqChanged := true} : Channel).freqChanged = true ∧
    (({chan0 with keyOn := true, freqChanged := true} : Channel).keyOn = true ∨
      ({chan0 with keyOn := true, freqChanged := true} : Channel).keyOff = true) ∧
    keyOrderSpec
      (tickFreqBlock {chan0 with keyOn := true, freqChanged := true} 100 none 0 0).2
      ({chan0 with keyOn := true, freqChanged := true} : Channel).keyOn :=
  ⟨rfl, Or.inl rfl,
   tick_key_edge_write_order {chan0 with keyOn := true, freqChanged := true}
     100 none 0 0 rfl (Or.inl rfl)⟩

/-- C4: the frequency stored into the channel and written to the
FREQ_L/FREQ_H register pair is the computed frequency clamped into
0..65535, for every value the (external) frequency computation can
produce: the clamp lies in range, the two frequency writes carry exactly
its low and high bytes, no other value is ever written to those
registers, and the bytes reassemble to the clamped value. -/
theorem tick_freq_write_clamped (c : Channel) (f : Int) (sinfo : Option SampleInfo)
    (soff cap : Nat) :
    0 ≤ clampFreq f ∧ clampFreq f ≤ 65535 ∧
    ((c.freqChanged = true ∨ c.keyOn = true ∨ c.keyOff = true) →
      (tickFreqBlock c f sinfo soff cap).1.freq = clampFreq f ∧
      qw SGU1_CHN_FREQ_L ((clampFreq f).toNat % 256)
        ∈ (tickFreqBlock c f sinfo soff cap).2 ∧
      qw SGU1_CHN_FREQ_H ((clampFreq f).toNat / 256)
        ∈ (tickFreqBlock c f sinfo soff cap).2) ∧
    (∀ v : Nat, (SGU1_CHN_FREQ_L, v) ∈ (tickFreqBlock c f sinfo soff cap).2 →
      v = (clampFreq f).toNat % 256) ∧
    (∀ v : Nat, (SGU1_CHN_FREQ_H, v) ∈ (tickFreqBlock c f sinfo soff cap).2 →
      v = (clampFreq f).toNat / 256) ∧
    (clampFreq f).toNat % 256 + 256 * ((clampFreq f).toNat / 256)
      = (clampFreq f).toNat := by
  refine ⟨?_, ?_, ?_, ?_, ?_, Nat.mod_add_div _ _⟩
  · unfold clampFreq; split_ifs <;> omega
  · unfold clampFreq; split_ifs <;> omega
  · intro hrun
    have hcond : (c.freqChanged ∨ c.keyOn ∨ c.keyOff) := by
      rcases hrun with h | h | h <;> simp [h]
    unfold tickFreqBlock
    rw [if_pos hcond]
    refine ⟨tfbPcm_chan_freq c f sinfo soff cap, ?_, ?_⟩ <;>
      simp [tfbFreqWrites, List.mem_append]
  · intro v hv
    by_cases hb : (c.freqChanged ∨ c.keyOn ∨ c.keyOff)
    · unfold tickFreqBlock at hv
      rw [if_pos hb] at hv
      dsimp only at hv
      rcases List.mem_append.mp hv with h1 | hP
      · rcases List.mem_append.mp h1 with h2 | hK
        · rcases List.mem_append.mp h2 with hA | hF
          · rcases tfbEdgeWrites_addrs c _ hA with h | h <;>
              simp [SGU1_CHN_FREQ_L, SGU1_CHN_FLAGS0, SGU1_CHN_VOL] at h
          · simp only [tfbFreqWrites, qw, List.mem_cons, List.not_mem_nil, or_false,
              Prod.mk.injEq, SGU1_CHN_FREQ_L, SGU1_CHN_FREQ_H] at hF
            rcases hF with ⟨_, hv2⟩ | ⟨h32, _⟩
            · omega
            · omega
        · have := tfbKeyOnWrites_addrs c f _ hK
          simp [SGU1_CHN_FREQ_L, SGU1_CHN_FLAGS0] at this
      · have := (tfbPcm_writes_addrs c f sinfo soff cap _ hP).1
        exact absurd rfl this
    · unfold tickFreqBlock at hv
      rw [if_neg hb] at hv
      simp at hv
  · intro v hv
    by_cases hb : (c.freqChanged ∨ c.keyOn ∨ c.keyOff)
    · unfold tickFreqBlock at hv
      rw [if_pos hb] at hv
      dsimp only at hv
      rcases List.mem_append.mp hv with h1 | hP
      · rcases List.mem_append.mp h1 with h2 | hK
        · rcases List.mem_append.mp h2 with hA | hF
          · rcases tfbEdgeWrites_addrs c _ hA with h | h <;>
              simp [SGU1_CHN_FREQ_H, SGU1_CHN_FLAGS0, SGU1_CHN_VOL] at h
          · simp only [tfbFreqWrites, qw, List.mem_cons, List.not_mem_nil, or_false,
              Prod.mk.injEq, SGU1_CHN_FREQ_L, SGU1_CHN_FREQ_H] at hF
            rcases hF with ⟨h33, _⟩ | ⟨_, hv2⟩
            · omega
            · have h0 : 0 ≤ clampFreq f := by unfold clampFreq; split_ifs <;> omega
              have h1 : clampFreq f ≤ 65535 := by unfold clampFreq; split_ifs <;> omega
              omega
        · have := tfbKeyOnWrites_addrs c f _ hK
          simp [SGU1_CHN_FREQ_H, SGU1_CHN_FLAGS0] at this
      · have := (tfbPcm_writes_addrs c f sinfo soff cap _ hP).2.1
        exact absurd rfl this
    · unfold tickFreqBlock at hv
      rw [if_neg hb] at hv
      simp at hv

/-- C4 (witness). -/
theorem tick_freq_write_clamped_witness :
    0 ≤ clampFreq 100000 ∧ clampFreq 100000 ≤ 65535 ∧
    ((tickFreqBlock {chan0 with freqChanged := true} 100000 none 0 0).1.freq
       = clampFreq 100000 ∧
     qw SGU1_CHN_FREQ_L ((clampFreq 100000).toNat % 256)
       ∈ (tickFreqBlock {chan0 with freqChanged := true} 100000 none 0 0).2 ∧
     qw SGU1_CHN_FREQ_H ((clampFreq 100000).toNat / 256)
       ∈ (tickFreqBlock {chan0 with freqChanged := true} 100000 none 0 0).2) :=
  ⟨(tick_freq_write_clamped {chan0 with freqChanged := true} 100000 none 0 0).1,
   (tick_freq_write_clamped {chan0 with freqChanged := true} 100000 none 0 0).2.1,
   (tick_freq_write_clamped {chan0 with freqChanged := true} 100000 none 0 0).2.2.1
     (Or.inl rfl)⟩

end SGUModel
namespace SGUModel

/-- Prefix sums of renderable payload lengths are monotone in the prefix
length. -/
lemma renderedLen_take_mono (l : List SampleDef) :
    ∀ k1 k2, k1 ≤ k2 → renderedLen (l.take k1) ≤ renderedLen (l.take k2) := by
  induction l with
  | nil => intro k1 k2 h; simp
  | cons s t ih =>
    intro k1 k2 h
    cases k1 with
    | zero =>
      simp only [List.take_zero, renderedLen]
      exact Nat.zero_le _
    | succ k1 =>
      cases k2 with
      | zero => omega
      | succ k2 =>
        simp only [List.take_succ_cons, renderedLen]
        exact Nat.add_le_add_left (ih k1 k2 (by omega)) _

/-- A fully fitting prefix advances the write position by its renderable
length, and the loop over `pre ++ rest` factors through the loop over
`pre`. -/
lemma renderLoop_fits (cap : Nat) :
    ∀ (pre rest : List SampleDef) (i p : Nat) (st : SampleMemState),
      allFit cap p pre = true →
      (renderLoop cap pre i p st).1 = p + renderedLen pre ∧
      renderLoop cap (pre ++ rest) i p st
        = renderLoop cap rest (i + pre.length) (p + renderedLen pre)
            ((renderLoop cap pre i p st).2) := by
  intro pre
  induction pre with
  | nil => intro rest i p st hfit; simp [renderLoop, renderedLen]
  | cons s t ih =>
    intro rest i p st hfit
    rw [allFit] at hfit
    by_cases hsr : (s.hasData && s.renderOn) = true
    · rw [if_pos hsr, Bool.and_eq_true, decide_eq_true_iff] at hfit
      obtain ⟨hlt, hfit2⟩ := hfit
      have hd : s.hasData = true := by revert hsr; cases s.hasData <;> simp
      have hr : s.renderOn = true := by revert hsr; cases s.renderOn <;> simp
      have step : ∀ (L : List SampleDef), renderLoop cap (s :: L) i p st
          = renderLoop cap L (i + 1) (p + s.data.length)
              {st with mem := copyRange st.mem p s.data s.data.length,
                       off := Function.update st.off i p,
                       loaded := Function.update st.loaded i true} := by
        intro L
        rw [renderLoop, if_neg (by simp [hd]), if_neg (by simp [hr]),
          if_neg (by omega), if_neg (by omega)]
      have e1 : i + (s :: t).length = (i + 1) + t.length := by
        simp [List.length_cons]; omega
      have e2 : p + renderedLen (s :: t) = (p + s.data.length) + renderedLen t := by
        simp only [renderedLen, hsr, if_pos]; omega
      constructor
      · rw [step, (ih rest (i + 1) (p + s.data.length) _ hfit2).1, ← e2]
      · rw [show (s :: t) ++ rest = s :: (t ++ rest) from rfl, step (t ++ rest), step t,
          (ih rest (i + 1) (p + s.data.length) _ hfit2).2, e1, e2]
    · rw [if_neg hsr] at hfit
      have hsrf : (s.hasData && s.renderOn) = false := by
        revert hsr; cases (s.hasData && s.renderOn) <;> simp
      have e2 : p + renderedLen (s :: t) = p + renderedLen t := by
        simp only [renderedLen, hsrf, Bool.false_eq_true, if_false]; omega
      by_cases hd : s.hasData = true
      · have hr : s.renderOn = false := by
          revert hsrf; rw [hd]; cases s.renderOn <;> simp
        have step : ∀ (L : List SampleDef), renderLoop cap (s :: L) i p st
            = renderLoop cap L (i + 1) p {st with off := Function.update st.off i 0} := by
          intro L
          rw [renderLoop, if_neg (by simp [hd]), if_pos hr]
        have e1 : i + (s :: t).length = (i + 1) + t.length := by
          simp [List.length_cons]; omega
        constructor
        · rw [step, (ih rest (i + 1) p _ hfit).1, ← e2]
        · rw [show (s :: t) ++ rest = s :: (t ++ rest) from rfl, step (t ++ rest), step t,
            (ih rest (i + 1) p _ hfit).2, e1, e2]
      · have hd2 : s.hasData = false := by
          revert hd; cases s.hasData <;> simp
        have step : ∀ (L : List SampleDef), renderLoop cap (s :: L) i p st
            = renderLoop cap L (i + 1) p st := by
          intro L
          rw [renderLoop, if_pos hd2]
        have e1 : i + (s :: t).length = (i + 1) + t.length := by
          simp [List.length_cons]; omega
        constructor
        · rw [step, (ih rest (i + 1) p _ hfit).1, ← e2]
        · rw [show (s :: t) ++ rest = s :: (t ++ rest) from rfl, step (t ++ rest), step t,
            (ih rest (i + 1) p _ hfit).2, e1, e2]

/-- State produced by a fully fitting prefix: memory beyond its payload is
untouched, offsets and loaded flags outside its index range are
untouched, warnings are preserved, and each renderable sample's offset is
the prefix sum of the renderable lengths before it. -/
lemma renderLoop_fits_state (cap : Nat) :
    ∀ (pre : List SampleDef) (i p : Nat) (st : SampleMemState),
      allFit cap p pre = true →
      (∀ a, p + renderedLen pre ≤ a →
        ((renderLoop cap pre i p st).2).mem a = st.mem a) ∧
      (∀ j, j < i ∨ i + pre.length ≤ j →
        ((renderLoop cap pre i p st).2).off j = st.off j ∧
        ((renderLoop cap pre i p st).2).loaded j = st.loaded j) ∧
      (∀ x, x ∈ st.warns → x ∈ ((renderLoop cap pre i p st).2).warns) ∧
      (∀ k, (hk : k < pre.length) →
        (pre[k].hasData && pre[k].renderOn) = true →
        ((renderLoop cap pre i p st).2).off (i + k) = p + renderedLen (pre.take k)) := by
  intro pre
  induction pre with
  | nil =>
    intro i p st hfit
    refine ⟨fun a ha => rfl, fun j hj => ⟨rfl, rfl⟩, fun x hx => hx, ?_⟩
    intro k hk
    simp at hk
  | cons s t ih =>
    intro i p st hfit
    rw [allFit] at hfit
    by_cases hsr : (s.hasData && s.renderOn) = true
    · rw [if_pos hsr, Bool.and_eq_true, decide_eq_true_iff] at hfit
      obtain ⟨hlt, hfit2⟩ := hfit
      have hd : s.hasData = true := by revert hsr; cases s.hasData <;> simp
      have hr : s.renderOn = true := by revert hsr; cases s.renderOn <;> simp
      have step : renderLoop cap (s :: t) i p st
          = renderLoop cap t (i + 1) (p + s.data.length)
              {st with mem := copyRange st.mem p s.data s.data.length,
                       off := Function.update st.off i p,
                       loaded := Function.update st.loaded i true} := by
        rw [renderLoop, if_neg (by simp [hd]), if_neg (by simp [hr]),
          if_neg (by omega), if_neg (by omega)]
      obtain ⟨ihm, iho, ihw, ihk⟩ := ih (i + 1) (p + s.data.length) _ hfit2
      rw [step]
      refine ⟨?_, ?_, ?_, ?_⟩
      · intro a ha
        have ha2 : (p + s.data.length) + renderedLen t ≤ a := by
          simp only [renderedLen, hsr, if_pos] at ha; omega
        rw [ihm a ha2]
        show copyRange st.mem p s.data s.data.length a = st.mem a
        unfold copyRange
        rw [if_neg (by omega)]
      · intro j hj
        have hj2 : j < i + 1 ∨ (i + 1) + t.length ≤ j := by
          simp only [List.length_cons] at hj; omega
        have hji : j ≠ i := by
          rcases hj with hj | hj
          · omega
          · simp only [List.length_cons] at hj; omega
        obtain ⟨ho, hl⟩ := iho j hj2
        constructor
        · rw [ho]; simp [Function.update_noteq hji]
        · rw [hl]; simp [Function.update_noteq hji]
      · intro x hx
        exact ihw x hx
      · intro k hk hkr
        cases k with
        | zero =>
          obtain ⟨ho, _⟩ := iho i (Or.inl (by omega))
          rw [show i + 0 = i from rfl, ho]
          simp [Function.update_same, renderedLen]
        | succ k =>
          have hk2 : k < t.length := by simpa using hk
          have hkr2 : (t[k].hasData && t[k].renderOn) = true := by
            simpa [List.getElem_cons_succ] using hkr
          have := ihk k hk2 hkr2
          rw [show i + (k + 1) = (i + 1) + k from by omega, this,
            List.take_succ_cons]
          simp only [renderedLen, hsr, if_pos]
          omega
    · rw [if_neg hsr] at hfit
      have hsrf : (s.hasData && s.renderOn) = false := by
        revert hsr; cases (s.hasData && s.renderOn) <;> simp
      by_cases hd : s.hasData = true
      · have hr : s.renderOn = false := by
          revert hsrf; rw [hd]; cases s.renderOn <;> simp
        have step : renderLoop cap (s :: t) i p st
            = renderLoop cap t (i + 1) p {st with off := Function.update st.off i 0} := by
          rw [renderLoop, if_neg (by simp [hd]), if_pos hr]
        obtain ⟨ihm, iho, ihw, ihk⟩ := ih (i + 1) p _ hfit
        rw [step]
        refine ⟨?_, ?_, ?_, ?_⟩
        · intro a ha
          have ha2 : p + renderedLen t ≤ a := by
            simp only [renderedLen, hsrf, Bool.false_eq_true, if_false] at ha; omega
          exact ihm a ha2
        · intro j hj
          have hj2 : j < i + 1 ∨ (i + 1) + t.length ≤ j := by
            simp only [List.length_cons] at hj; omega
          have hji : j ≠ i := by
            rcases hj with hj | hj
            · omega
            · simp only [List.length_cons] at hj; omega
          obtain ⟨ho, hl⟩ := iho j hj2
          constructor
          · rw [ho]; simp [Function.update_noteq hji]
          · rw [hl]
        · intro x hx
          exact ihw x hx
        · intro k hk hkr
          cases k with
          | zero =>
            rw [List.getElem_cons_zero] at hkr
            rw [hkr] at hsrf
            simp at hsrf
          | succ k =>
            have hk2 : k < t.length := by simpa using hk
            have hkr2 : (t[k].hasData && t[k].renderOn) = true := by
              simpa [List.getElem_cons_succ] using hkr
            have := ihk k hk2 hkr2
            rw [show i + (k + 1) = (i + 1) + k from by omega, this,
              List.take_succ_cons]
            simp only [renderedLen, hsrf, Bool.false_eq_true, if_false]
            omega
      · have hd2 : s.hasData = false := by
          revert hd; cases s.hasData <;> simp
        have step : renderLoop cap (s :: t) i p st = renderLoop cap t (i + 1) p st := by
          rw [renderLoop, if_pos hd2]
        obtain ⟨ihm, iho, ihw, ihk⟩ := ih (i + 1) p st hfit
        rw [step]
        refine ⟨?_, ?_, ?_, ?_⟩
        · intro a ha
          have ha2 : p + renderedLen t ≤ a := by
            simp only [renderedLen, hsrf, Bool.false_eq_true, if_false] at ha; omega
          exact ihm a ha2
        · intro j hj
          have hj2 : j < i + 1 ∨ (i + 1) + t.length ≤ j := by
            simp only [List.length_cons] at hj; omega
          exact iho j hj2
        · intro x hx
          exact ihw x hx
        · intro k hk hkr
          cases k with
          | zero =>
            rw [List.getElem_cons_zero] at hkr
            rw [hkr] at hsrf
            simp at hsrf
          | succ k =>
            have hk2 : k < t.length := by simpa using hk
            have hkr2 : (t[k].hasData && t[k].renderOn) = true := by
              simpa [List.getElem_cons_succ] using hkr
            have := ihk k hk2 hkr2
            rw [show i + (k + 1) = (i + 1) + k from by omega, this,
              List.take_succ_cons]
            simp only [renderedLen, hsrf, Bool.false_eq_true, if_false]
            omega

/-- Once the write position has reached the capacity, the loop copies and
loads nothing further: memory and loaded flags are untouched, offsets are
at most reset to zero, warnings are preserved. -/
lemma renderLoop_overflow (cap : Nat) :
    ∀ (post : List SampleDef) (i p : Nat) (st : SampleMemState),
      cap ≤ p →
      (renderLoop cap post i p st).1 = p ∧
      (∀ a, ((renderLoop cap post i p st).2).mem a = st.mem a) ∧
      (∀ j, ((renderLoop cap post i p st).2).loaded j = st.loaded j) ∧
      (∀ j, j < i → ((renderLoop cap post i p st).2).off j = st.off j) ∧
      (∀ j, ((renderLoop cap post i p st).2).off j = st.off j ∨
            ((renderLoop cap post i p st).2).off j = 0) ∧
      (∀ x, x ∈ st.warns → x ∈ ((renderLoop cap post i p st).2).warns) := by
  intro post
  induction post with
  | nil =>
    intro i p st hcap
    exact ⟨rfl, fun a => rfl, fun j => rfl, fun j hj => rfl, fun j => Or.inl rfl,
      fun x hx => hx⟩
  | cons s t ih =>
    intro i p st hcap
    by_cases hd : s.hasData = true
    · by_cases hr : s.renderOn = true
      · have step : renderLoop cap (s :: t) i p st
            = (p, {st with warns := st.warns ++ [i]}) := by
          rw [renderLoop, if_neg (by simp [hd]), if_neg (by simp [hr]), if_pos hcap]
        rw [step]
        refine ⟨rfl, fun a => rfl, fun j => rfl, fun j hj => rfl, fun j => Or.inl rfl, ?_⟩
        intro x hx
        exact List.mem_append_left _ hx
      · have hr2 : s.renderOn = false := by revert hr; cases s.renderOn <;> simp
        have step : renderLoop cap (s :: t) i p st
            = renderLoop cap t (i + 1) p {st with off := Function.update st.off i 0} := by
          rw [renderLoop, if_neg (by simp [hd]), if_pos hr2]
        obtain ⟨ih1, ihm, ihl, iho1, iho2, ihw⟩ := ih (i + 1) p _ hcap
        rw [step]
        refine ⟨ih1, ihm, ihl, ?_, ?_, ihw⟩
        · intro j hj
          rw [iho1 j (by omega)]
          simp [Function.update_noteq (show j ≠ i from by omega)]
        · intro j
          rcases iho2 j with h | h
          · by_cases hji : j = i
            · subst hji
              right
              rw [h]
              simp [Function.update_same]
            · left
              rw [h]
              simp [Function.update_noteq hji]
          · exact Or.inr h
    · have hd2 : s.hasData = false := by revert hd; cases s.hasData <;> simp
      have step : renderLoop cap (s :: t) i p st = renderLoop cap t (i + 1) p st := by
        rw [renderLoop, if_pos hd2]
      obtain ⟨ih1, ihm, ihl, iho1, iho2, ihw⟩ := ih (i + 1) p st hcap
      rw [step]
      exact ⟨ih1, ihm, ihl, fun j hj => iho1 j (by omega), iho2, ihw⟩

end SGUModel
namespace SGUModel

/-- C7: when a renderable sample is the first whose copy would overrun the
sample-RAM capacity (every renderable sample before it fits strictly),
`renderSamples` copies exactly the truncated prefix of it that fits,
logs an out-of-memory warning for it, leaves its loaded flag false,
copies and loads nothing for any later sample (their offsets stay 0 and
memory beyond the capacity stays clear), and assigns monotonically
non-decreasing offsets starting from 0 (each renderable sample's offset
is the renderable length of the list before it). -/
theorem renderSamples_truncates_first_overflow (cap : Nat) (pre : List SampleDef)
    (s : SampleDef) (post : List SampleDef) (sysID : Nat) (st : SampleMemState)
    (hfit : allFit cap 0 pre = true)
    (hs : (s.hasData && s.renderOn) = true)
    (hlow : renderedLen pre < cap)
    (hover : cap < renderedLen pre + s.data.length) :
    (renderSamples cap (pre ++ s :: post) sysID st).loaded pre.length = false ∧
    (renderSamples cap (pre ++ s :: post) sysID st).off pre.length = renderedLen pre ∧
    (∀ k, k < cap - renderedLen pre →
      (renderSamples cap (pre ++ s :: post) sysID st).mem (renderedLen pre + k)
        = s.data.getD k 0) ∧
    pre.length ∈ (renderSamples cap (pre ++ s :: post) sysID st).warns ∧
    (∀ j, pre.length < j →
      (renderSamples cap (pre ++ s :: post) sysID st).loaded j = false ∧
      (renderSamples cap (pre ++ s :: post) sysID st).off j = 0) ∧
    (∀ a, cap ≤ a → (renderSamples cap (pre ++ s :: post) sysID st).mem a = 0) ∧
    (∀ k, (hk : k < pre.length) → (pre[k].hasData && pre[k].renderOn) = true →
      (renderSamples cap (pre ++ s :: post) sysID st).off k = renderedLen (pre.take k)) ∧
    (∀ k1 k2, k1 ≤ k2 → renderedLen (pre.take k1) ≤ renderedLen (pre.take k2)) := by
  have hd : s.hasData = true := by revert hs; cases s.hasData <;> simp
  have hr : s.renderOn = true := by revert hs; cases s.renderOn <;> simp
  set start : SampleMemState :=
    {clearedState with memLen := st.memLen, sysIDCache := st.sysIDCache} with hstartdef
  have hLo : (renderSamples cap (pre ++ s :: post) sysID st).loaded
      = ((renderLoop cap (pre ++ s :: post) 0 0 start).2).loaded := rfl
  have hO : (renderSamples cap (pre ++ s :: post) sysID st).off
      = ((renderLoop cap (pre ++ s :: post) 0 0 start).2).off := rfl
  have hM : (renderSamples cap (pre ++ s :: post) sysID st).mem
      = ((renderLoop cap (pre ++ s :: post) 0 0 start).2).mem := rfl
  have hW : (renderSamples cap (pre ++ s :: post) sysID st).warns
      = ((renderLoop cap (pre ++ s :: post) 0 0 start).2).warns := rfl
  set st1 : SampleMemState := (renderLoop cap pre 0 0 start).2 with hst1def
  have hsplit := (renderLoop_fits cap pre (s :: post) 0 0 start hfit).2
  simp only [Nat.zero_add] at hsplit
  set st2 : SampleMemState :=
    {st1 with mem := copyRange st1.mem (renderedLen pre) s.data (cap - renderedLen pre),
              off := Function.update st1.off pre.length (renderedLen pre),
              warns := st1.warns ++ [pre.length]} with hst2def
  have hstep : renderLoop cap (s :: post) pre.length (renderedLen pre) st1
      = renderLoop cap post (pre.length + 1) (renderedLen pre + s.data.length) st2 := by
    rw [renderLoop, if_neg (by simp [hd]), if_neg (by simp [hr]),
      if_neg (by omega), if_pos (by omega)]
  have hEq : renderLoop cap (pre ++ s :: post) 0 0 start
      = renderLoop cap post (pre.length + 1) (renderedLen pre + s.data.length) st2 :=
    hsplit.trans hstep
  obtain ⟨hp1, hpm, hpl, hpo1, hpo2, hpw⟩ :=
    renderLoop_overflow cap post (pre.length + 1)
      (renderedLen pre + s.data.length) st2 (by omega)
  obtain ⟨hm0, ho0, hw0, hk0⟩ := renderLoop_fits_state cap pre 0 0 start hfit
  refine ⟨?_, ?_, ?_, ?_, ?_, ?_, ?_, renderedLen_take_mono pre⟩
  · rw [hLo, hEq, hpl, hst2def]
    show st1.loaded pre.length = false
    rw [(ho0 pre.length (Or.inr (by omega))).2, hstartdef]
    rfl
  · rw [hO, hEq, hpo1 pre.length (by omega), hst2def]
    show Function.update st1.off pre.length (renderedLen pre) pre.length = renderedLen pre
    exact Function.update_same _ _ _
  · intro k hk
    rw [hM, hEq, hpm, hst2def]
    show copyRange st1.mem (renderedLen pre) s.data (cap - renderedLen pre)
      (renderedLen pre + k) = s.data.getD k 0
    unfold copyRange
    rw [if_pos (by omega), Nat.add_sub_cancel_left]
  · rw [hW, hEq]
    exact hpw _ (by rw [hst2def]; exact List.mem_append_right _ (by simp))
  · intro j hj
    constructor
    · rw [hLo, hEq, hpl, hst2def]
      show st1.loaded j = false
      rw [(ho0 j (Or.inr (by omega))).2, hstartdef]
      rfl
    · rw [hO, hEq]
      rcases hpo2 j with h | h
      · rw [h, hst2def]
        show Function.update st1.off pre.length (renderedLen pre) j = 0
        rw [Function.update_noteq (by omega)]
        rw [(ho0 j (Or.inr (by omega))).1, hstartdef]
        rfl
      · exact h
  · intro a ha
    rw [hM, hEq, hpm, hst2def]
    show copyRange st1.mem (renderedLen pre) s.data (cap - renderedLen pre) a = 0
    unfold copyRange
    rw [if_neg (by omega)]
    rw [hm0 a (by omega), hstartdef]
    rfl
  · intro k hk hkr
    rw [hO, hEq, hpo1 k (by omega), hst2def]
    show Function.update st1.off pre.length (renderedLen pre) k = renderedLen (pre.take k)
    rw [Function.update_noteq (by omega)]
    have := hk0 k hk hkr
    simpa using this

/-- C7 (witness). -/
theorem renderSamples_truncates_first_overflow_witness :
    allFit 4 0 [(⟨true, true, [1, 2]⟩ : SampleDef)] = true ∧
    ((⟨true, true, [10, 20, 30]⟩ : SampleDef).hasData
      && (⟨true, true, [10, 20, 30]⟩ : SampleDef).renderOn) = true ∧
    renderedLen [(⟨true, true, [1, 2]⟩ : SampleDef)] < 4 ∧
    4 < renderedLen [(⟨true, true, [1, 2]⟩ : SampleDef)]
      + (⟨true, true, [10, 20, 30]⟩ : SampleDef).data.length ∧
    (renderSamples 4
      ([⟨true, true, [1, 2]⟩] ++ (⟨true, true, [10, 20, 30]⟩ : SampleDef)
        :: [⟨true, true, [5]⟩]) 0 clearedState).loaded 1 = false :=
  ⟨by decide, by decide, by decide, by decide,
   (renderSamples_truncates_first_overflow 4 [⟨true, true, [1, 2]⟩]
     ⟨true, true, [10, 20, 30]⟩ [⟨true, true, [5]⟩] 0 clearedState
     (by decide) (by decide) (by decide) (by decide)).1⟩

end SGUModel
